import Mathlib

/-!
# MReader userscript (`mreader.js`): a verification development

A shallow embedding of the userscript's components, each definition following the
source function of the same name:

* the URL gate `isAllowedUrl`,
* the style assembler `cssBase`,
* the config store `storage.load` / `storage.save`,
* the DOM passes `neutralizeFixedWidthContainers` and `markFramesAndColumns`,
* the managed style tag (`ensureStyleTag`, `reapplyStyle`) and `apply`.

Ambient browser state (`location.href`, the document, the userscript manager's value
store) is passed explicitly.  In string literals `\x7b` and `\x7d` are the braces.
-/

namespace MReader

/-! ## Regular expressions (the fragment the script's patterns use) -/

/-- Pattern syntax: literal characters, `.`, concatenation, alternation, greedy `*`. -/
inductive Re where
  | eps : Re
  | chr (c : Char) : Re
  | dot : Re
  | seq (a b : Re) : Re
  | alt (a b : Re) : Re
  | star (a : Re) : Re
  deriving DecidableEq

/-- A `RegExp` object: its pattern, the flags `i`, `g` and `y`, and its `lastIndex` property,
which `test` reads and writes when `g` or `y` is set.  A pattern literal starts with
`lastIndex` 0. -/
structure RegExp where
  source : Re
  ignoreCase : Bool
  global : Bool := false
  sticky : Bool := false
  lastIndex : Nat := 0
  deriving DecidableEq

/-- The pattern `a?` (greedy: `a` is tried first). -/
def Re.opt (a : Re) : Re := Re.alt a Re.eps

/-- The pattern matching exactly the characters of `cs`. -/
def Re.lits : List Char → Re
  | [] => Re.eps
  | c :: cs => Re.seq (Re.chr c) (Re.lits cs)

/-- The pattern matching exactly the text `s`. -/
def Re.lit (s : String) : Re := Re.lits s.data

/-- Line terminators, which `.` does not match. -/
def isLineTerminator (c : Char) : Bool :=
  c == '\n' || c == '\r' || c == '\u2028' || c == '\u2029'

/-- Character comparison, case-folded under the `i` flag. -/
def charEq (ic : Bool) (a b : Char) : Bool :=
  if ic then a.toUpper == b.toUpper else a == b

/-- The loop of a greedy `*`: another round of `step` is tried first, and only counts when it
consumes text; then the rest of the pattern `k`.  A round consumes a character, so as many
rounds as there are characters suffice. -/
def starLoop (step : List Char → (List Char → Option (List Char)) → Option (List Char)) :
    Nat → List Char → (List Char → Option (List Char)) → Option (List Char)
  | 0, cs, k => k cs
  | n + 1, cs, k =>
    match step cs (fun rest => if rest.length < cs.length then starLoop step n rest k else none) with
    | some r => some r
    | none => k cs

/-- Backtracking match of the pattern at the start of `cs`, then the continuation `k` on the
text left over; the result is the first success in the order JavaScript tries the choices. -/
def Re.run (ic : Bool) : Re → List Char → (List Char → Option (List Char)) → Option (List Char)
  | Re.eps, cs, k => k cs
  | Re.chr c, cs, k =>
    match cs with
    | x :: xs => if charEq ic x c then k xs else none
    | [] => none
  | Re.dot, cs, k =>
    match cs with
    | x :: xs => if isLineTerminator x then none else k xs
    | [] => none
  | Re.seq a b, cs, k => Re.run ic a cs (fun rest => Re.run ic b rest k)
  | Re.alt a b, cs, k =>
    match Re.run ic a cs k with
    | some r => some r
    | none => Re.run ic b cs k
  | Re.star a, cs, k => starLoop (fun cs' k' => Re.run ic a cs' k') cs.length cs k

/-- A match starting exactly at the start of `cs`: the text after the match. -/
def Re.matchAt (ic : Bool) (r : Re) (cs : List Char) : Option (List Char) :=
  Re.run ic r cs (fun rest => some rest)

/-- The search loop of `exec`: a match is tried at the start of `cs` and, unless `sticky`, at
each later position in turn; the result is the text after the first match found. -/
def Re.searchFrom (ic : Bool) (r : Re) (sticky : Bool) : List Char → Option (List Char)
  | [] => Re.matchAt ic r []
  | c :: cs =>
    match Re.matchAt ic r (c :: cs) with
    | some rest => some rest
    | none => if sticky then none else Re.searchFrom ic r sticky cs

/-- `re.test(s)` with its effect on the object: the result, and `re` afterwards.  With `g` or
`y` the search starts at `lastIndex`, a success moves `lastIndex` to the end of the match and
a failure resets it to 0; without them it starts at 0 and `lastIndex` is left alone.  The text
is taken character by character (`location.href` is ASCII, one code unit per character). -/
def RegExp.testStep (re : RegExp) (s : String) : Bool × RegExp :=
  let stateful := re.global || re.sticky
  let start := if stateful then re.lastIndex else 0
  if s.data.length < start then (false, if stateful then { re with lastIndex := 0 } else re)
  else
    match Re.searchFrom re.ignoreCase re.source re.sticky (s.data.drop start) with
    | some rest =>
      (true, if stateful then { re with lastIndex := s.data.length - rest.length } else re)
    | none => (false, if stateful then { re with lastIndex := 0 } else re)

/-- The value of `re.test(s)`. -/
def RegExp.test (re : RegExp) (s : String) : Bool := (re.testStep s).1

/-- Whether the pattern matches the text, that is, somewhere in it. -/
def RegExp.matches (re : RegExp) (s : String) : Bool :=
  (Re.searchFrom re.ignoreCase re.source false s.data).isSome

/-- `list.some(re => re.test(s))` with its effect: the result and the patterns afterwards;
the patterns after the first success are not tested. -/
def someTest : List RegExp → String → Bool × List RegExp
  | [], _ => (false, [])
  | re :: rest, s =>
    if (re.testStep s).1 then (true, (re.testStep s).2 :: rest)
    else ((someTest rest s).1, (re.testStep s).2 :: (someTest rest s).2)

/-! ## Configuration -/

/-- The configuration record of the data model. -/
structure Config where
  enabled : Bool
  compactMargins : Bool
  wrapTables : Bool
  fontSizePx : Nat
  darkMode : Bool
  allowList : List RegExp
  denyList : List RegExp
  deriving DecidableEq

/-- The pattern `/https?:\/\/www\.marxists\.org\/.*/i`. -/
def marxistsPattern : RegExp :=
  { source := Re.seq (Re.lit "http") (Re.seq (Re.opt (Re.chr 's'))
      (Re.seq (Re.lit "://www.marxists.org/") (Re.star Re.dot)))
    ignoreCase := true }

/-- The shipped defaults, `defaultConfig` in the source. -/
def defaultConfig : Config :=
  { enabled := true
    compactMargins := true
    wrapTables := true
    fontSizePx := 16
    darkMode := false
    allowList := [marxistsPattern]
    denyList := [] }

/-! ## Router / guards -/

/-- The value the URL gate returns; `href` is `location.href`.  Each `re.test` reads the
`lastIndex` of its pattern (`isAllowedUrlStep` gives the patterns afterwards). -/
def isAllowedUrl (config : Config) (href : String) : Bool :=
  if config.denyList.any (fun re => re.test href) then false
  else if config.allowList.any (fun re => re.test href) then true
  else false

/-- The URL gate with its effect on the pattern objects of the configuration (taken to be
distinct objects): the value returned and the configuration afterwards. -/
def isAllowedUrlStep (config : Config) (href : String) : Bool × Config :=
  if (someTest config.denyList href).1 then
    (false, { config with denyList := (someTest config.denyList href).2 })
  else
    ((someTest config.allowList href).1,
      { config with
        denyList := (someTest config.denyList href).2
        allowList := (someTest config.allowList href).2 })

/-- The pattern `/archive/g`. -/
def archivePattern : RegExp := { source := Re.lit "archive", ignoreCase := false, global := true }

/-- The shipped defaults with `denyList = [/archive/g]`. -/
def archiveDenyConfig : Config := { defaultConfig with denyList := [archivePattern] }

/-- An address under `/archive/`. -/
def archiveUrl : String := "https://www.marxists.org/archive/index.htm"

/-- The pattern `/foo/`. -/
def fooPattern : RegExp := { source := Re.lit "foo", ignoreCase := false }

/-- The pattern `/.*marxists\.org.*/`. -/
def anyMarxistsPattern : RegExp :=
  { source := Re.seq (Re.star Re.dot) (Re.seq (Re.lit "marxists.org") (Re.star Re.dot))
    ignoreCase := false }

/-- The configuration of the gate example: the defaults with `denyList = [/foo/]` and
`allowList = [/.*marxists\.org.*/]`. -/
def gateExampleConfig : Config :=
  { defaultConfig with allowList := [anyMarxistsPattern], denyList := [fooPattern] }

/-! ## CSS assembly -/

/-- `Array.prototype.join`: the items with `sep` between neighbours. -/
def join (sep : String) : List String → String
  | [] => ""
  | [a] => a
  | a :: b :: rest => a ++ sep ++ join sep (b :: rest)

/-- Truthiness of a string, the test `filter(Boolean)` applies: empty text is falsy. -/
def truthy (s : String) : Bool := !s.data.isEmpty

/-- The rule that turns tables into scrollable blocks (guarded by `wrapTables`). -/
def tableRule : String :=
  "table \x7b display: block; width: 100% !important; overflow-x: auto; -webkit-overflow-scrolling: touch; border-collapse: collapse; \x7d"

/-- The rule for table sections (guarded by `wrapTables`). -/
def tableSectionRule : String := "thead, tbody, tfoot, tr \x7b width: 100%; \x7d"

/-- The dark palette (guarded by `darkMode`). -/
def darkRule : String :=
  "html \x7b color-scheme: dark; \x7d body \x7b background: #0b0b0b; color: #e5e5e5; \x7d a \x7b color: #7ab4ff; \x7d"

/-- The template literal for the custom property holding the font size. -/
def rootRule (fontSize : String) : String :=
  ":root \x7b --mreader-font-size: " ++ fontSize ++ "; \x7d"

/-- The template literal for the body rule. -/
def bodyRule (bodyMaxWidth sidePadding : String) : String :=
  "body \x7b font-size: var(--mreader-font-size); line-height: 1.65; max-width: " ++ bodyMaxWidth
    ++ "; margin: 0 auto; padding: 0 " ++ sidePadding
    ++ "; overflow-wrap: break-word; word-wrap: break-word; \x7d"

/-- The style assembler.  `fontSizePx || 16` falls back to 16 for the falsy size 0; the
template literal prints a natural number in decimal (as JavaScript does below `10^21`). -/
def cssBase (config : Config) : String :=
  let bodyMaxWidth := if config.compactMargins then "52ch" else "64ch"
  let sidePadding := if config.compactMargins then "12px" else "16px"
  let fontSize := Nat.repr (if config.fontSizePx = 0 then 16 else config.fontSizePx) ++ "px"
  join "\n" (List.filter truthy [
    "html \x7b box-sizing: border-box; -webkit-text-size-adjust: 100%; \x7d",
    "*, *::before, *::after \x7b box-sizing: inherit; \x7d",
    rootRule fontSize,
    bodyRule bodyMaxWidth sidePadding,
    "#content, #main, #BodyContent, article \x7b max-width: 100%; \x7d",
    "img, svg, video, canvas, iframe \x7b max-width: 100% !important; height: auto !important; \x7d",
    if config.wrapTables then tableRule else "",
    if config.wrapTables then tableSectionRule else "",
    "pre \x7b white-space: pre-wrap; word-break: break-word; overflow: auto; -webkit-overflow-scrolling: touch; \x7d",
    "code, kbd, samp \x7b white-space: pre-wrap; word-break: break-word; \x7d",
    "a \x7b overflow-wrap: anywhere; \x7d",
    "body, #content, #main, #BodyContent, .content, .main \x7b width: auto !important; \x7d",
    if config.darkMode then darkRule else ""
  ])

/-- The lines of a text: its pieces between line feeds. -/
def textLines (s : String) : List String := (s.data.splitOn '\n').map String.mk

/-! ### The text of `cssBase` by parts -/

/-- The rule groups whose guard holds, in output order: six unguarded rules, the two table
rules under `wrapTables`, four unguarded rules, the dark palette under `darkMode`. -/
def ruleGroups (config : Config) : List String :=
  [ "html \x7b box-sizing: border-box; -webkit-text-size-adjust: 100%; \x7d",
    "*, *::before, *::after \x7b box-sizing: inherit; \x7d",
    rootRule (Nat.repr (if config.fontSizePx = 0 then 16 else config.fontSizePx) ++ "px"),
    bodyRule (if config.compactMargins then "52ch" else "64ch")
      (if config.compactMargins then "12px" else "16px"),
    "#content, #main, #BodyContent, article \x7b max-width: 100%; \x7d",
    "img, svg, video, canvas, iframe \x7b max-width: 100% !important; height: auto !important; \x7d" ]
  ++ (if config.wrapTables then [tableRule, tableSectionRule] else [])
  ++ [ "pre \x7b white-space: pre-wrap; word-break: break-word; overflow: auto; -webkit-overflow-scrolling: touch; \x7d",
       "code, kbd, samp \x7b white-space: pre-wrap; word-break: break-word; \x7d",
       "a \x7b overflow-wrap: anywhere; \x7d",
       "body, #content, #main, #BodyContent, .content, .main \x7b width: auto !important; \x7d" ]
  ++ (if config.darkMode then [darkRule] else [])

/-- What `cssBase` emits before the font size. -/
def cssHead : String :=
  "html \x7b box-sizing: border-box; -webkit-text-size-adjust: 100%; \x7d" ++ "\n"
    ++ "*, *::before, *::after \x7b box-sizing: inherit; \x7d" ++ "\n"
    ++ ":root \x7b --mreader-font-size: "

/-- What `cssBase` emits after the font size and its unit, by the three flags read there. -/
def cssTail (compactMargins wrapTables darkMode : Bool) : String :=
  "; \x7d" ++ "\n" ++ join "\n" (
    [ bodyRule (if compactMargins then "52ch" else "64ch")
        (if compactMargins then "12px" else "16px"),
      "#content, #main, #BodyContent, article \x7b max-width: 100%; \x7d",
      "img, svg, video, canvas, iframe \x7b max-width: 100% !important; height: auto !important; \x7d" ]
    ++ (if wrapTables then [tableRule, tableSectionRule] else [])
    ++ [ "pre \x7b white-space: pre-wrap; word-break: break-word; overflow: auto; -webkit-overflow-scrolling: touch; \x7d",
         "code, kbd, samp \x7b white-space: pre-wrap; word-break: break-word; \x7d",
         "a \x7b overflow-wrap: anywhere; \x7d",
         "body, #content, #main, #BodyContent, .content, .main \x7b width: auto !important; \x7d" ]
    ++ (if darkMode then [darkRule] else []))

/-- The rule groups other than the font-size rule, by the three flags that guard or shape them. -/
def fixedRules (compactMargins wrapTables darkMode : Bool) : List String :=
  [ "html \x7b box-sizing: border-box; -webkit-text-size-adjust: 100%; \x7d",
    "*, *::before, *::after \x7b box-sizing: inherit; \x7d",
    bodyRule (if compactMargins then "52ch" else "64ch")
      (if compactMargins then "12px" else "16px"),
    "#content, #main, #BodyContent, article \x7b max-width: 100%; \x7d",
    "img, svg, video, canvas, iframe \x7b max-width: 100% !important; height: auto !important; \x7d" ]
  ++ (if wrapTables then [tableRule, tableSectionRule] else [])
  ++ [ "pre \x7b white-space: pre-wrap; word-break: break-word; overflow: auto; -webkit-overflow-scrolling: touch; \x7d",
       "code, kbd, samp \x7b white-space: pre-wrap; word-break: break-word; \x7d",
       "a \x7b overflow-wrap: anywhere; \x7d",
       "body, #content, #main, #BodyContent, .content, .main \x7b width: auto !important; \x7d" ]
  ++ (if darkMode then [darkRule] else [])

/-! ## Decimal printing -/

/-- Value of a digit string, most significant digit first. -/
def digitsValue (cs : List Char) : Nat :=
  cs.foldl (fun a c => 10 * a + (c.toNat - 48)) 0

/-! ## JavaScript values and JSON -/

/-- The JavaScript values a stored configuration can be made of.  Numbers are the integers;
an object is its own enumerable properties in order. -/
inductive JSVal where
  | undefined : JSVal
  | null : JSVal
  | bool (b : Bool) : JSVal
  | num (n : Int) : JSVal
  | str (s : String) : JSVal
  | regexp (re : RegExp) : JSVal
  | arr (items : List JSVal) : JSVal
  | obj (fields : List (String × JSVal)) : JSVal

/-- An object: its own enumerable properties. -/
abbrev JSObject := List (String × JSVal)

/-- Property read `o[k]`; `none` when `o` has no property `k`. -/
def getField (o : JSObject) (k : String) : Option JSVal :=
  match o with
  | [] => none
  | (k', v) :: rest => if k' = k then some v else getField rest k

/-- Property write `o[k] = v`: an existing property keeps its place, a new one goes last. -/
def setField (o : JSObject) (k : String) (v : JSVal) : JSObject :=
  match o with
  | [] => [(k, v)]
  | (k', v') :: rest => if k' = k then (k', v) :: rest else (k', v') :: setField rest k v

/-- Index keys `"0"`, `"1"`, ... paired with the items. -/
def indexed (start : Nat) : List JSVal → JSObject
  | [] => []
  | v :: vs => (Nat.repr start, v) :: indexed (start + 1) vs

/-- The own enumerable properties that object spread copies out of a value: the fields of an
object, the indexed items of an array, the indexed characters of a string, nothing otherwise. -/
def ownProps : JSVal → JSObject
  | JSVal.obj fields => fields
  | JSVal.arr items => indexed 0 items
  | JSVal.str s => indexed 0 (s.data.map (fun c => JSVal.str (String.singleton c)))
  | _ => []

/-- Object spread `{ ...base, ...over }` where `props` are the properties of `over`. -/
def spread (base : JSObject) (props : JSObject) : JSObject :=
  props.foldl (fun acc kv => setField acc kv.1 kv.2) base

/-- Hexadecimal digit. -/
def hexDigit (d : Nat) : Char := Nat.digitChar (d % 16)

/-- How `JSON.stringify` writes one character of a string. -/
def escapeChar (c : Char) : List Char :=
  if c = '\"' then ['\\', '\"']
  else if c = '\\' then ['\\', '\\']
  else if c = '\n' then ['\\', 'n']
  else if c = '\r' then ['\\', 'r']
  else if c = '\t' then ['\\', 't']
  else if c.toNat = 8 then ['\\', 'b']
  else if c.toNat = 12 then ['\\', 'f']
  else if c.toNat < 32 then ['\\', 'u', '0', '0', hexDigit (c.toNat / 16), hexDigit c.toNat]
  else [c]

/-- A string as JSON text: quoted, with escapes. -/
def quoteJSON (s : String) : String :=
  String.mk ('\"' :: (s.data.flatMap escapeChar ++ ['\"']))

/-- An integer in decimal. -/
def intToString : Int → String
  | Int.ofNat n => Nat.repr n
  | Int.negSucc n => "-" ++ Nat.repr (n + 1)

mutual
/-- `JSON.stringify` of a value; `none` where JavaScript yields `undefined`.  A `RegExp`
has no enumerable property of its own and is written as an empty object. -/
def stringifyValue : JSVal → Option String
  | JSVal.undefined => none
  | JSVal.null => some "null"
  | JSVal.bool b => some (if b then "true" else "false")
  | JSVal.num n => some (intToString n)
  | JSVal.str s => some (quoteJSON s)
  | JSVal.regexp _ => some "\x7b\x7d"
  | JSVal.arr items => some ("[" ++ join "," (stringifyItems items) ++ "]")
  | JSVal.obj fields => some ("\x7b" ++ join "," (stringifyFields fields) ++ "\x7d")
/-- The items of an array as JSON texts; `undefined` is written `null`. -/
def stringifyItems : List JSVal → List String
  | [] => []
  | v :: vs => (stringifyValue v).getD "null" :: stringifyItems vs
/-- The properties of an object as JSON members; those that are `undefined` are left out. -/
def stringifyFields : List (String × JSVal) → List String
  | [] => []
  | (k, v) :: rest =>
    match stringifyValue v with
    | some t => (quoteJSON k ++ ":" ++ t) :: stringifyFields rest
    | none => stringifyFields rest
end

/-- `JSON.stringify` of an object. -/
def JSON_stringify (o : JSObject) : String :=
  "\x7b" ++ join "," (stringifyFields o) ++ "\x7d"

/-- JSON whitespace. -/
def isJSONSpace (c : Char) : Bool := c = ' ' || c = '\t' || c = '\n' || c = '\r'

/-- The text after leading whitespace. -/
def skipSpace : List Char → List Char
  | [] => []
  | c :: cs => if isJSONSpace c then skipSpace cs else c :: cs

/-- Value of a hexadecimal digit. -/
def hexValue (c : Char) : Option Nat :=
  if c.isDigit then some (c.toNat - 48)
  else if 'a'.toNat ≤ c.toNat ∧ c.toNat ≤ 'f'.toNat then some (c.toNat - 87)
  else if 'A'.toNat ≤ c.toNat ∧ c.toNat ≤ 'F'.toNat then some (c.toNat - 55)
  else none

/-- The rest of a JSON string after its opening quote: the characters read so far in `acc`,
the decoded string and the text after the closing quote. -/
def parseStringBody : List Char → List Char → Option (String × List Char)
  | [], _ => none
  | '\"' :: rest, acc => some (String.mk acc.reverse, rest)
  | '\\' :: 'u' :: a :: b :: c :: d :: rest, acc =>
    match hexValue a, hexValue b, hexValue c, hexValue d with
    | some x, some y, some z, some w =>
      parseStringBody rest (Char.ofNat (((x * 16 + y) * 16 + z) * 16 + w) :: acc)
    | _, _, _, _ => none
  | '\\' :: e :: rest, acc =>
    if e = '\"' then parseStringBody rest ('\"' :: acc)
    else if e = '\\' then parseStringBody rest ('\\' :: acc)
    else if e = '/' then parseStringBody rest ('/' :: acc)
    else if e = 'n' then parseStringBody rest ('\n' :: acc)
    else if e = 'r' then parseStringBody rest ('\r' :: acc)
    else if e = 't' then parseStringBody rest ('\t' :: acc)
    else if e = 'b' then parseStringBody rest (Char.ofNat 8 :: acc)
    else if e = 'f' then parseStringBody rest (Char.ofNat 12 :: acc)
    else none
  | c :: rest, acc => if c.toNat < 32 then none else parseStringBody rest (c :: acc)

/-- The leading run of decimal digits and the text after it. -/
def takeDigits : List Char → List Char × List Char
  | [] => ([], [])
  | c :: cs =>
    if c.isDigit then ((takeDigits cs).1.cons c, (takeDigits cs).2) else ([], c :: cs)

/-- A JSON integer without sign: no leading zero, and no fraction or exponent part (numbers
with one lie outside the integer model and count as unparsable). -/
def parseNat (cs : List Char) : Option (Nat × List Char) :=
  match takeDigits cs with
  | ([], _) => none
  | (d :: ds, rest) =>
    if d = '0' ∧ ds ≠ [] then none
    else match rest with
      | '.' :: _ => none
      | 'e' :: _ => none
      | 'E' :: _ => none
      | _ => some (digitsValue (d :: ds), rest)

mutual
/-- A JSON value at the start of the text (after whitespace), with the text that follows. -/
def parseValue : Nat → List Char → Option (JSVal × List Char)
  | 0, _ => none
  | fuel + 1, cs =>
    match skipSpace cs with
    | 'n' :: 'u' :: 'l' :: 'l' :: rest => some (JSVal.null, rest)
    | 't' :: 'r' :: 'u' :: 'e' :: rest => some (JSVal.bool true, rest)
    | 'f' :: 'a' :: 'l' :: 's' :: 'e' :: rest => some (JSVal.bool false, rest)
    | '\"' :: rest =>
      match parseStringBody rest [] with
      | some (s, rest') => some (JSVal.str s, rest')
      | none => none
    | '-' :: rest =>
      match parseNat rest with
      | some (n, rest') => some (JSVal.num (-(Int.ofNat n)), rest')
      | none => none
    | '[' :: rest =>
      match skipSpace rest with
      | ']' :: rest' => some (JSVal.arr [], rest')
      | _ => parseItems fuel rest []
    | '\x7b' :: rest =>
      match skipSpace rest with
      | '\x7d' :: rest' => some (JSVal.obj [], rest')
      | _ => parseMembers fuel rest []
    | c :: rest =>
      match parseNat (c :: rest) with
      | some (n, rest') => some (JSVal.num (Int.ofNat n), rest')
      | none => none
    | [] => none
/-- The items of an array after `[` or a comma, up to the closing bracket. -/
def parseItems : Nat → List Char → List JSVal → Option (JSVal × List Char)
  | 0, _, _ => none
  | fuel + 1, cs, acc =>
    match parseValue fuel cs with
    | none => none
    | some (v, rest) =>
      match skipSpace rest with
      | ',' :: rest' => parseItems fuel rest' (acc ++ [v])
      | ']' :: rest' => some (JSVal.arr (acc ++ [v]), rest')
      | _ => none
/-- The members of an object after the opening brace or a comma, up to the closing brace;
a repeated key keeps its place and takes the later value. -/
def parseMembers : Nat → List Char → JSObject → Option (JSVal × List Char)
  | 0, _, _ => none
  | fuel + 1, cs, acc =>
    match skipSpace cs with
    | '\"' :: rest =>
      match parseStringBody rest [] with
      | none => none
      | some (k, rest1) =>
        match skipSpace rest1 with
        | ':' :: rest2 =>
          match parseValue fuel rest2 with
          | none => none
          | some (v, rest3) =>
            match skipSpace rest3 with
            | ',' :: rest4 => parseMembers fuel rest4 (setField acc k v)
            | '\x7d' :: rest4 => some (JSVal.obj (setField acc k v), rest4)
            | _ => none
        | _ => none
    | _ => none
end

/-- `JSON.parse`; `none` stands for the `SyntaxError` it throws. -/
def JSON_parse (text : String) : Option JSVal :=
  match parseValue (text.data.length + 1) text.data with
  | some (v, rest) => if skipSpace rest = [] then some v else none
  | none => none

/-! ## Storage helpers -/

/-- The value store of the userscript manager as the script meets it: whether `GM_getValue` and
`GM_setValue` throw, and the text kept under `CONFIG_KEY` (if any). -/
structure GM where
  getThrows : Bool
  setThrows : Bool
  stored : Option String

/-- A configuration as the JavaScript object the script holds. -/
def Config.toJS (c : Config) : JSObject :=
  [ ("enabled", JSVal.bool c.enabled),
    ("compactMargins", JSVal.bool c.compactMargins),
    ("wrapTables", JSVal.bool c.wrapTables),
    ("fontSizePx", JSVal.num (Int.ofNat c.fontSizePx)),
    ("darkMode", JSVal.bool c.darkMode),
    ("allowList", JSVal.arr (c.allowList.map JSVal.regexp)),
    ("denyList", JSVal.arr (c.denyList.map JSVal.regexp)) ]

/-- The seven fields of a configuration. -/
def configFields : List String :=
  ["enabled", "compactMargins", "wrapTables", "fontSizePx", "darkMode", "allowList", "denyList"]

/-- `storage.load`, with `JSON.parse` passed in (`none` is a thrown `SyntaxError`).
`GM_getValue(CONFIG_KEY, '')` gives the stored text, or `''` when there is none; whatever
throws inside the `try` ends in the `catch`, which returns the defaults. -/
def storage.loadWith (parse : String → Option JSVal) (gm : GM) : JSObject :=
  if gm.getThrows then defaultConfig.toJS
  else
    let raw := gm.stored.getD ""
    if raw = "" then defaultConfig.toJS
    else
      match parse raw with
      | none => defaultConfig.toJS
      | some parsed => spread defaultConfig.toJS (ownProps parsed)

/-- `storage.load`. -/
def storage.load (gm : GM) : JSObject := storage.loadWith JSON_parse gm

/-- `storage.save`: a throwing `GM_setValue` is swallowed. -/
def storage.save (cfg : JSObject) (gm : GM) : GM :=
  if gm.setThrows then gm else { gm with stored := some (JSON_stringify cfg) }

/-- The reference reading of `load` in which unknown fields are dropped: the defaults when
the text is absent, empty or unparsable or the read throws, else the default record with each
of its fields replaced by the persisted value when the persisted data has that field. -/
def loadDroppingUnknown (parse : String → Option JSVal) (gm : GM) : JSObject :=
  if gm.getThrows then defaultConfig.toJS
  else
    match gm.stored with
    | none => defaultConfig.toJS
    | some text =>
      if text = "" then defaultConfig.toJS
      else
        match parse text with
        | none => defaultConfig.toJS
        | some parsed =>
          defaultConfig.toJS.map
            (fun kv => (kv.1, (getField (ownProps parsed) kv.1).getD kv.2))

/-- The value a property list gives a key: that of its last entry for the key. -/
def lookupLast (props : JSObject) (k : String) : Option JSVal := getField props.reverse k

/-- A working store with nothing saved yet. -/
def emptyStore : GM := { getThrows := false, setThrows := false, stored := none }

/-- A working store holding the text `\x7b"foo":1\x7d`. -/
def fooStore : GM :=
  { getThrows := false, setThrows := false, stored := some "\x7b\"foo\":1\x7d" }

/-! ## The document -/

/-- An HTML element.  `attrs` are its content attributes other than `style`; `styleAttr` is the
value of the `style` attribute and `style` the declarations `el.style` exposes (property and
value, as written by the script); `text` is the text directly inside it; `depth` is its
nesting depth. -/
structure Element where
  tag : String
  depth : Nat
  attrs : List (String × String)
  styleAttr : Option String
  style : List (String × String)
  text : String
  deriving DecidableEq

/-- A document: its elements in tree order, each with its depth, so that the parent of an
element is the nearest earlier element of smaller depth. -/
abbrev Document := List Element

/-- Lookup in a list of name and value pairs. -/
def lookup (l : List (String × String)) (name : String) : Option String :=
  match l with
  | [] => none
  | (n, v) :: rest => if n = name then some v else lookup rest name

/-- Write into a list of name and value pairs: an existing name keeps its place, a new one
goes last. -/
def assign (l : List (String × String)) (name value : String) : List (String × String) :=
  match l with
  | [] => [(name, value)]
  | (n, v) :: rest => if n = name then (n, value) :: rest else (n, v) :: assign rest name value

/-- `el.getAttribute(name)`. -/
def Element.getAttribute (el : Element) (name : String) : Option String := lookup el.attrs name

/-- `el.hasAttribute(name)`. -/
def Element.hasAttribute (el : Element) (name : String) : Bool := (lookup el.attrs name).isSome

/-- `el.removeAttribute(name)`. -/
def Element.removeAttribute (el : Element) (name : String) : Element :=
  { el with attrs := el.attrs.filter (fun a => a.1 ≠ name) }

/-- `el.setAttribute(name, value)`. -/
def Element.setAttribute (el : Element) (name value : String) : Element :=
  { el with attrs := assign el.attrs name value }

/-- Read of `el.style[prop]`: the empty string when the property is not declared. -/
def Element.getStyle (el : Element) (prop : String) : String := (lookup el.style prop).getD ""

/-- Text of a declaration block: `prop: value;` items separated by blanks. -/
def serializeStyle (decls : List (String × String)) : String :=
  join " " (decls.map (fun d => d.1 ++ ": " ++ d.2 ++ ";"))

/-- Write of `el.style[prop] = value`: a write that changes the declarations also rewrites the
`style` attribute to the text of the block; one that changes nothing leaves the element.
Each property the script writes (`max-width`, `width`, `overflow`, ...) is kept as one
declaration under its own name. -/
def Element.setStyle (el : Element) (prop value : String) : Element :=
  if lookup el.style prop = some value then el
  else
    { el with
      style := assign el.style prop value
      styleAttr := some (serializeStyle (assign el.style prop value)) }

/-- Whether `text` begins with `pat`. -/
def startsWith : List Char → List Char → Bool
  | _, [] => true
  | [], _ :: _ => false
  | c :: cs, p :: ps => c = p && startsWith cs ps

/-- Whether `pat` occurs in `text`. -/
def containsSub : List Char → List Char → Bool
  | [], pat => startsWith [] pat
  | c :: cs, pat => startsWith (c :: cs) pat || containsSub cs pat

/-- The attribute selector `[style*="width:"]`. -/
def Element.styleHasWidth (el : Element) : Bool :=
  match el.styleAttr with
  | some t => containsSub t.data "width:".data
  | none => false

/-- The selector `#id`. -/
def Element.hasId (el : Element) (id : String) : Bool := el.getAttribute "id" = some id

/-- Each element paired with the tag of its parent element (`none` for a root); `before`
holds the elements already passed, nearest first. -/
def withParents : List Element → List Element → List (Option String × Element)
  | _, [] => []
  | before, e :: rest =>
    ((before.find? (fun a => a.depth < e.depth)).map (fun a => a.tag), e)
      :: withParents (e :: before) rest

/-- `document.getElementById(id)`: the first element in tree order with that id. -/
def getElementById (doc : Document) (id : String) : Option Element :=
  doc.find? (fun e => e.hasId id)

/-- Number of elements with the given id. -/
def countId (doc : Document) (id : String) : Nat := (doc.filter (fun e => e.hasId id)).length

/-- The list with `el` put in after the leading run of elements deeper than `d` (the
descendants of the element just before). -/
def insertAfterSubtree (d : Nat) : List Element → Element → List Element
  | [], el => [el]
  | e :: rest, el => if d < e.depth then e :: insertAfterSubtree d rest el else el :: e :: rest

/-- `parent.appendChild(el)` where `parent` is the element at index `i`: `el` becomes its last
child. -/
def appendChildAt : Nat → Document → Element → Document
  | _, [], _ => []
  | 0, p :: rest, el => p :: insertAfterSubtree p.depth rest { el with depth := p.depth + 1 }
  | i + 1, p :: rest, el => p :: appendChildAt i rest el

/-- `el.textContent = text` for the element at index `i`: its descendants are removed and the
text is put in their place. -/
def setTextContentAt : Nat → Document → String → Document
  | _, [], _ => []
  | 0, e :: rest, t => { e with text := t } :: rest.dropWhile (fun x => e.depth < x.depth)
  | i + 1, e :: rest, t => e :: setTextContentAt i rest t

/-- `parent.removeChild(el)` for the element at index `i`: it goes with its descendants. -/
def removeSubtreeAt : Nat → Document → Document
  | _, [] => []
  | 0, e :: rest => rest.dropWhile (fun x => e.depth < x.depth)
  | i + 1, e :: rest => e :: removeSubtreeAt i rest

/-- Index of `document.head`: the first `head` child of a root `html` element. -/
def headIndex (doc : Document) : Option Nat :=
  match doc with
  | [] => none
  | root :: rest =>
    if root.tag = "html" then
      match rest.findIdx? (fun e => e.tag = "head" ∧ e.depth = root.depth + 1) with
      | some i => some (i + 1)
      | none => none
    else none

/-- `document.createElement(tag)`. -/
def createElement (tag : String) : Element :=
  { tag := tag, depth := 0, attrs := [], styleAttr := none, style := [], text := "" }

/-! ## JS feature modules -/

/-- The selector list of `neutralizeFixedWidthContainers`, for an element whose parent has tag
`parent`. -/
def neutralizeSelector (parent : Option String) (el : Element) : Bool :=
  (parent = some "body" && el.tag = "div" && el.styleHasWidth)
  || (el.hasId "content" && el.styleHasWidth)
  || (el.hasId "main" && el.styleHasWidth)
  || (el.hasId "BodyContent" && el.styleHasWidth)
  || (el.tag = "table" && el.hasAttribute "width")
  || (el.tag = "td" && el.hasAttribute "width")
  || (el.tag = "div" && el.hasAttribute "width")

/-- The body of the `forEach` in `neutralizeFixedWidthContainers`.  The three writes cannot
throw on an HTML element, so the `catch` around them is never entered. -/
def neutralizeElement (el : Element) : Element :=
  let el1 := el.setStyle "max-width" "100%"
  let el2 := el1.setStyle "width" "auto"
  el2.setStyle "overflow" (if el2.getStyle "overflow" = "" then "hidden" else el2.getStyle "overflow")

/-- The container pass: every element the selector list matches goes through the `forEach`
body. -/
def neutralizeFixedWidthContainers (doc : Document) : Document :=
  (withParents [] doc).map
    (fun pe => if neutralizeSelector pe.1 pe.2 then neutralizeElement pe.2 else pe.2)

/-- The table and column pass: first every `table`, then every `td` and `th`. -/
def markFramesAndColumns (doc : Document) : Document :=
  (doc.map (fun t => if t.tag = "table" then t.setStyle "max-width" "100%" else t)).map
    (fun c =>
      if c.tag = "td" ∨ c.tag = "th" then
        (if c.hasAttribute "width" then c.removeAttribute "width" else c)
      else c)

/-- The JS cleanups as `apply` runs them: the container pass, then the table and column pass. -/
def jsCleanups (doc : Document) : Document :=
  markFramesAndColumns (neutralizeFixedWidthContainers doc)

/-- An element with the given tag, depth and attributes and no inline style. -/
def plainElement (tag : String) (depth : Nat) (attrs : List (String × String)) : Element :=
  { createElement tag with depth := depth, attrs := attrs }

/-- A page whose body holds one table with one cell carrying `width="800"`. -/
def cellDocument : Document :=
  [ plainElement "html" 0 [], plainElement "head" 1 [], plainElement "body" 1 [],
    plainElement "table" 2 [], plainElement "tr" 3 [], plainElement "td" 4 [("width", "800")] ]

/-- A page whose body holds one table with `id="content"` and no `style` attribute. -/
def contentTableDocument : Document :=
  [ plainElement "html" 0 [], plainElement "head" 1 [], plainElement "body" 1 [],
    plainElement "table" 2 [("id", "content")] ]

/-! ## The managed style tag -/

/-- The id of the managed style tag, `tagId` in the source. -/
def tagId : String := "mreader-style-base"

/-- The element `apply` builds for the managed style tag: a `style` element with the id and
the given text. -/
def styleElement (css : String) : Element :=
  { (createElement "style").setAttribute "id" tagId with text := css }

/-- The block "Ensure a managed style tag exists" of `apply`: when no element has the id, a
style element holding `cssBase config` is appended to `document.head`.  `none` is the
`TypeError` raised when `document.head` is `null`. -/
def ensureStyleTag (config : Config) (doc : Document) : Option Document :=
  match getElementById doc tagId with
  | some _ => some doc
  | none =>
    match headIndex doc with
    | some h => some (appendChildAt h doc (styleElement (cssBase config)))
    | none => none

/-- The `onChange` callback `apply` hands to `buildUI`: the text of the element with the id is
overwritten, and the element is created in `document.head` when there is none. -/
def reapplyStyle (newCfg : Config) (doc : Document) : Option Document :=
  match doc.findIdx? (fun e => e.hasId tagId) with
  | some i => some (setTextContentAt i doc (cssBase newCfg))
  | none =>
    match headIndex doc with
    | some h => some (appendChildAt h doc (styleElement (cssBase newCfg)))
    | none => none

/-- The ensure block run once for each configuration of the list, in order. -/
def ensureAll : List Config → Document → Option Document
  | [], doc => some doc
  | c :: cs, doc =>
    match ensureStyleTag c doc with
    | some doc' => ensureAll cs doc'
    | none => none

/-- The `onChange` callback run once for each configuration of the list, in order. -/
def reapplyAll : List Config → Document → Option Document
  | [], doc => some doc
  | c :: cs, doc =>
    match reapplyStyle c doc with
    | some doc' => reapplyAll cs doc'
    | none => none

/-- The ensure block for `c` and then for each of `cs`, followed by the `onChange` callback
for each of `ds`. -/
def ensureThenReapply (c : Config) (cs ds : List Config) (doc : Document) : Option Document :=
  match ensureAll (c :: cs) doc with
  | some doc' => reapplyAll ds doc'
  | none => none

/-- The configuration whose styles were written last: that of the last `onChange` call, or,
without one, that of the ensure call that created the element. -/
def lastApplied (c : Config) (ds : List Config) : Config := ds.getLast?.getD c

/-- A page with a root and a body but no `head` element. -/
def headlessDocument : Document := [plainElement "html" 0 [], plainElement "body" 1 []]

/-! ## Settings UI -/

/-- The id of the settings mount. -/
def uiId : String := "mreader-ui"

/-- An element with a run of `el.style[prop] = value` writes applied in order. -/
def styled (e : Element) (decls : List (String × String)) : Element :=
  decls.foldl (fun el d => el.setStyle d.1 d.2) e

/-- A row of `mkToggle`: a `label` holding a checkbox and a `span` with the label text, at
the depths they take under the mount (the `checked` state of the checkbox and its `change`
listener are not part of an element record). -/
def mkToggle (label : String) : List Element :=
  [ { styled (createElement "label")
        [("display", "flex"), ("align-items", "center"), ("gap", "8px"), ("margin", "6px 0")]
      with depth := 2 },
    { (createElement "input").setAttribute "type" "checkbox" with depth := 3 },
    { createElement "span" with depth := 3, text := label } ]

/-- The subtree `buildUI` builds, root first, with depths counted from the mount. -/
def uiSubtree : List Element :=
  [ styled ((createElement "div").setAttribute "id" uiId)
      [("position", "fixed"), ("right", "12px"), ("bottom", "12px"), ("z-index", "2147483647")],
    { styled ((createElement "button").setAttribute "aria-label" "MReader settings")
        [("padding", "10px 12px"), ("border-radius", "20px"),
         ("border", "1px solid rgba(0,0,0,0.2)"), ("background", "#ffffff"), ("color", "#111"),
         ("box-shadow", "0 2px 10px rgba(0,0,0,0.15)"), ("font-size", "14px")]
      with depth := 1, text := "MR" },
    { styled (createElement "div")
        [("position", "absolute"), ("right", "0"), ("bottom", "42px"), ("min-width", "200px"),
         ("padding", "12px"), ("border-radius", "8px"), ("border", "1px solid rgba(0,0,0,0.15)"),
         ("background", "#ffffff"), ("color", "#111"),
         ("box-shadow", "0 6px 20px rgba(0,0,0,0.18)"), ("display", "none")]
      with depth := 1 } ]
  ++ mkToggle "Enable improvements"
  ++ mkToggle "Compact margins"
  ++ mkToggle "Wrap wide tables"
  ++ [ { styled (createElement "div")
           [("font-size", "12px"), ("opacity", "0.75"), ("margin-top", "6px")]
         with depth := 2, text := "Font size, Dark mode coming next." } ]

/-- The list with the elements `els` put in after the leading run of elements deeper than `d`. -/
def insertSubtreeAfter (d : Nat) : List Element → List Element → List Element
  | [], els => els
  | e :: rest, els => if d < e.depth then e :: insertSubtreeAfter d rest els else els ++ e :: rest

/-- `parent.appendChild(root)` for a built subtree, `parent` being the element at index `i`. -/
def appendSubtreeAt : Nat → Document → List Element → Document
  | _, [], _ => []
  | 0, p :: rest, els =>
    p :: insertSubtreeAfter p.depth rest (els.map (fun e => { e with depth := e.depth + p.depth + 1 }))
  | i + 1, p :: rest, els => p :: appendSubtreeAt i rest els

/-- `buildUI`: nothing when the mount exists, else the subtree is appended to
`document.documentElement`; `none` is the `TypeError` raised when there is no root element. -/
def buildUI (doc : Document) : Option Document :=
  match getElementById doc uiId with
  | some _ => some doc
  | none =>
    match doc with
    | [] => none
    | _ :: _ => some (appendSubtreeAt 0 doc uiSubtree)

/-- `removeUI`: the mount, when there is one, is removed from its parent. -/
def removeUI (doc : Document) : Document :=
  match doc.findIdx? (fun e => e.hasId uiId) with
  | some i => removeSubtreeAt i doc
  | none => doc

/-! ## Main apply -/

/-- `document.readyState`. -/
inductive ReadyState where
  | loading : ReadyState
  | interactive : ReadyState
  | complete : ReadyState
  deriving DecidableEq

/-- The page as `apply` meets it: `location.href`, the document and its ready state, whether
`GM_addStyle` throws, the style texts `GM_addStyle` has taken, the cleanups `dom.onReady`
queued for `DOMContentLoaded` (by the configuration each closes over) and the number of
observers waiting for the `head` to appear. -/
structure World where
  href : String
  doc : Document
  readyState : ReadyState
  addStyleThrows : Bool
  injected : List String
  onDOMContentLoaded : List Config
  headObservers : Nat
  deriving DecidableEq

/-- The viewport `meta` element `dom.ensureViewportMeta` creates. -/
def viewportMeta : Element :=
  ((createElement "meta").setAttribute "name" "viewport").setAttribute "content"
    "width=device-width, initial-scale=1, viewport-fit=cover"

/-- `dom.ensureViewportMeta`: without a `meta[name="viewport"]`, one is appended to the `head`,
or an observer is left waiting for the `head`; `none` is the `TypeError` of observing a missing
root element. -/
def ensureViewportMeta (w : World) : Option World :=
  if w.doc.any (fun e => e.tag = "meta" && e.getAttribute "name" = some "viewport") then some w
  else
    match headIndex w.doc with
    | some h => some { w with doc := appendChildAt h w.doc viewportMeta }
    | none =>
      match w.doc with
      | [] => none
      | _ :: _ => some { w with headObservers := w.headObservers + 1 }

/-- `dom.addStyle`: `GM_addStyle` takes the text; when it throws, a `style` element with the
text is appended to `document.head` (`none`: the `TypeError` when the `head` is missing). -/
def addStyle (css : String) (w : World) : Option World :=
  if w.addStyleThrows then
    match headIndex w.doc with
    | some h => some { w with doc := appendChildAt h w.doc { createElement "style" with text := css } }
    | none => none
  else some { w with injected := w.injected ++ [css] }

/-- The callback `apply` hands to `dom.onReady`: both passes, the settings UI, the managed
style tag.  The flag tells whether a step threw; the document is as that step left it. -/
def readyCallback (config : Config) (doc : Document) : Document × Bool :=
  let cleaned := markFramesAndColumns (neutralizeFixedWidthContainers doc)
  match buildUI cleaned with
  | none => (cleaned, true)
  | some withUI =>
    match ensureStyleTag config withUI with
    | none => (withUI, true)
    | some done => (done, false)

/-- `apply`; the flag tells whether it ended by an exception. -/
def apply (config : Config) (w : World) : World × Bool :=
  if !isAllowedUrl config w.href then (w, false)
  else
    match ensureViewportMeta w with
    | none => (w, true)
    | some w1 =>
      if !config.enabled then ({ w1 with doc := removeUI w1.doc }, false)
      else
        match addStyle (cssBase config) w1 with
        | none => (w1, true)
        | some w2 =>
          if w2.readyState = ReadyState.complete ∨ w2.readyState = ReadyState.interactive then
            ({ w2 with doc := (readyCallback config w2.doc).1 }, (readyCallback config w2.doc).2)
          else
            ({ w2 with onDOMContentLoaded := w2.onDOMContentLoaded ++ [config] }, false)

/-- What a page looks like when the pipeline has stayed out of it: nothing handed to
`GM_addStyle`, no managed style tag, no settings mount, no cleanup queued, and the document as
before except possibly for the viewport `meta` appended to its `head`. -/
def stayedOut (w w' : World) : Prop :=
  w'.injected = w.injected
  ∧ getElementById w'.doc tagId = none
  ∧ getElementById w'.doc uiId = none
  ∧ w'.onDOMContentLoaded = w.onDOMContentLoaded
  ∧ (w'.doc = w.doc ∨ ∃ h, headIndex w.doc = some h ∧ w'.doc = appendChildAt h w.doc viewportMeta)

/-- The shipped defaults with `enabled` off. -/
def disabledConfig : Config := { defaultConfig with enabled := false }

/-- The page with one table cell of width 800, still loading, at an allowed address. -/
def cellWorld : World :=
  { href := "https://www.marxists.org/archive/index.htm"
    doc := cellDocument
    readyState := ReadyState.loading
    addStyleThrows := false
    injected := []
    onDOMContentLoaded := []
    headObservers := 0 }

/-! # Theorems -/

/-! ## Decimal printing: lemmas -/

theorem digitChar_isDigit (d : Nat) (h : d < 10) : (Nat.digitChar d).isDigit = true := by
  interval_cases d <;> decide

theorem digitChar_value (d : Nat) (h : d < 10) : (Nat.digitChar d).toNat - 48 = d := by
  interval_cases d <;> decide

theorem toDigitsCore_acc (fuel : Nat) : ∀ (n : Nat) (ds : List Char),
    Nat.toDigitsCore 10 fuel n ds = Nat.toDigitsCore 10 fuel n [] ++ ds := by
  induction fuel with
  | zero => intro n ds; simp [Nat.toDigitsCore]
  | succ f ih =>
    intro n ds
    simp only [Nat.toDigitsCore]
    split
    · simp
    · rw [ih (n / 10) (Nat.digitChar (n % 10) :: ds), ih (n / 10) [Nat.digitChar (n % 10)]]
      simp

theorem digitsValue_snoc (cs : List Char) (c : Char) :
    digitsValue (cs ++ [c]) = 10 * digitsValue cs + (c.toNat - 48) := by
  simp [digitsValue, List.foldl_append]

theorem toDigitsCore_spec (fuel : Nat) : ∀ n : Nat, n < fuel →
    digitsValue (Nat.toDigitsCore 10 fuel n []) = n ∧
      ∀ c ∈ Nat.toDigitsCore 10 fuel n [], c.isDigit = true := by
  induction fuel with
  | zero => intro n h; omega
  | succ f ih =>
    intro n hn
    have hd : n % 10 < 10 := Nat.mod_lt _ (by decide)
    simp only [Nat.toDigitsCore]
    split
    · rename_i h0
      refine ⟨?_, ?_⟩
      · simp only [digitsValue, List.foldl_cons, List.foldl_nil]
        rw [digitChar_value _ hd]; omega
      · intro c hc
        simp only [List.mem_singleton] at hc
        subst hc
        exact digitChar_isDigit _ hd
    · rename_i h0
      rw [toDigitsCore_acc]
      have hlt : n / 10 < f := by omega
      obtain ⟨hv, hall⟩ := ih (n / 10) hlt
      refine ⟨?_, ?_⟩
      · rw [digitsValue_snoc, hv, digitChar_value _ hd]; omega
      · intro c hc
        rcases List.mem_append.mp hc with h | h
        · exact hall c h
        · simp only [List.mem_singleton] at h
          subst h
          exact digitChar_isDigit _ hd

theorem toDigits_value (n : Nat) : digitsValue (Nat.toDigits 10 n) = n :=
  (toDigitsCore_spec (n + 1) n (Nat.lt_succ_self n)).1

theorem toDigits_isDigit (n : Nat) : ∀ c ∈ Nat.toDigits 10 n, c.isDigit = true :=
  (toDigitsCore_spec (n + 1) n (Nat.lt_succ_self n)).2

theorem toDigits_injective (a b : Nat) (h : Nat.toDigits 10 a = Nat.toDigits 10 b) : a = b := by
  rw [← toDigits_value a, ← toDigits_value b, h]

/-- Two digit runs, each followed by the same non-digit, agree when the whole texts do. -/
theorem digits_cancel (stop : Char) (hstop : stop.isDigit = false) :
    ∀ (ds ds' r r' : List Char), (∀ c ∈ ds, c.isDigit = true) → (∀ c ∈ ds', c.isDigit = true) →
      ds ++ stop :: r = ds' ++ stop :: r' → ds = ds' ∧ r = r' := by
  intro ds
  induction ds with
  | nil =>
    intro ds' r r' _ h' h
    cases ds' with
    | nil => simpa using h
    | cons d ds' =>
      simp only [List.nil_append, List.cons_append, List.cons.injEq] at h
      have := h' d (List.mem_cons_self _ _)
      rw [← h.1, hstop] at this
      cases this
  | cons d ds ih =>
    intro ds' r r' h1 h' h
    cases ds' with
    | nil =>
      simp only [List.nil_append, List.cons_append, List.cons.injEq] at h
      have := h1 d (List.mem_cons_self _ _)
      rw [h.1, hstop] at this
      cases this
    | cons d' ds' =>
      simp only [List.cons_append, List.cons.injEq] at h
      obtain ⟨hd, ht⟩ := h
      have := ih ds' r r' (fun c hc => h1 c (List.mem_cons_of_mem _ hc))
        (fun c hc => h' c (List.mem_cons_of_mem _ hc)) ht
      exact ⟨by rw [hd, this.1], this.2⟩

/-! ## The URL gate -/

theorem test_eq_matches (re : RegExp) (s : String) (hy : re.sticky = false)
    (hg : re.global = true → re.lastIndex = 0) : re.test s = re.matches s := by
  unfold RegExp.test RegExp.matches RegExp.testStep
  cases hgl : re.global with
  | false =>
    simp only [hy, Bool.or_self, Bool.false_eq_true, if_false, Nat.not_lt_zero, List.drop_zero]
    cases Re.searchFrom re.ignoreCase re.source false s.data <;> rfl
  | true =>
    simp only [hy, hg hgl, Bool.or_false, if_true, Nat.not_lt_zero, if_false, List.drop_zero]
    cases Re.searchFrom re.ignoreCase re.source false s.data <;> rfl

theorem any_test_eq_matches (l : List RegExp) (s : String)
    (h : ∀ re ∈ l, re.sticky = false ∧ (re.global = true → re.lastIndex = 0)) :
    l.any (fun re => re.test s) = l.any (fun re => re.matches s) := by
  induction l with
  | nil => rfl
  | cons re rest ih =>
    simp only [List.any_cons]
    rw [test_eq_matches re s (h re (List.mem_cons_self _ _)).1 (h re (List.mem_cons_self _ _)).2,
      ih (fun r hr => h r (List.mem_cons_of_mem _ hr))]

theorem someTest_fst (l : List RegExp) (s : String) :
    (someTest l s).1 = l.any (fun re => re.test s) := by
  induction l with
  | nil => rfl
  | cons re rest ih =>
    simp only [someTest, List.any_cons, RegExp.test]
    cases (re.testStep s).1 with
    | true => simp
    | false => simpa using ih

theorem isAllowedUrlStep_fst (config : Config) (href : String) :
    (isAllowedUrlStep config href).1 = isAllowedUrl config href := by
  unfold isAllowedUrlStep isAllowedUrl
  rw [someTest_fst, someTest_fst]
  cases config.denyList.any (fun re => re.test href) with
  | true => simp
  | false =>
    cases config.allowList.any (fun re => re.test href) <;> simp

theorem testStep_plain (re : RegExp) (s : String) (hg : re.global = false)
    (hy : re.sticky = false) : (re.testStep s).2 = re := by
  unfold RegExp.testStep
  simp only [hg, hy, Bool.or_self, Bool.false_eq_true, if_false, Nat.not_lt_zero, List.drop_zero]
  cases Re.searchFrom re.ignoreCase re.source false s.data <;> rfl

theorem someTest_plain (l : List RegExp) (s : String)
    (h : ∀ re ∈ l, re.global = false ∧ re.sticky = false) : (someTest l s).2 = l := by
  induction l with
  | nil => rfl
  | cons re rest ih =>
    have hre := h re (List.mem_cons_self _ _)
    simp only [someTest]
    split
    · rw [testStep_plain re s hre.1 hre.2]
    · rw [testStep_plain re s hre.1 hre.2, ih (fun r hr => h r (List.mem_cons_of_mem _ hr))]

/-- C1 (as amended): for a configuration whose patterns have no `y` flag and, where they have
the `g` flag, `lastIndex` 0 (so for every configuration of patterns without `g` and `y`, such
as the shipped one), `isAllowedUrl` returns false whenever a deny-list pattern matches the URL,
whatever the allow-list holds, and otherwise returns true exactly when an allow-list pattern
matches; an empty allow-list is always rejected; a call leaves patterns without `g` and `y`
as they were; and with `denyList = [/foo/]`, `allowList = [/.*marxists\.org.*/]` the three
example URLs are rejected, allowed and rejected. -/
theorem isAllowedUrl_gate (config : Config) (href : String) :
    ((∀ re ∈ config.denyList ++ config.allowList,
          re.sticky = false ∧ (re.global = true → re.lastIndex = 0)) →
        (config.denyList.any (fun re => re.matches href) = true →
          isAllowedUrl config href = false)
        ∧ (config.denyList.any (fun re => re.matches href) = false →
          (isAllowedUrl config href = true
            ↔ config.allowList.any (fun re => re.matches href) = true)))
    ∧ (config.allowList = [] → isAllowedUrl config href = false)
    ∧ ((∀ re ∈ config.denyList ++ config.allowList, re.global = false ∧ re.sticky = false) →
        isAllowedUrlStep config href = (isAllowedUrl config href, config))
    ∧ isAllowedUrl gateExampleConfig "https://www.marxists.org/foo" = false
    ∧ isAllowedUrl gateExampleConfig "https://www.marxists.org/bar" = true
    ∧ isAllowedUrl gateExampleConfig "https://example.com/" = false := by
  refine ⟨?_, ?_, ?_, ?_, ?_, ?_⟩
  · intro h
    have hd := any_test_eq_matches config.denyList href
      (fun re hre => h re (List.mem_append_left _ hre))
    have ha := any_test_eq_matches config.allowList href
      (fun re hre => h re (List.mem_append_right _ hre))
    refine ⟨?_, ?_⟩
    · intro hm
      rw [← hd] at hm
      simp [isAllowedUrl, hm]
    · intro hm
      rw [← hd] at hm
      rw [← ha]
      simp [isAllowedUrl, hm]
  · intro h
    unfold isAllowedUrl
    rw [h]
    split <;> simp
  · intro h
    apply Prod.ext
    · exact isAllowedUrlStep_fst config href
    · have hd := someTest_plain config.denyList href
        (fun re hre => h re (List.mem_append_left _ hre))
      have ha := someTest_plain config.allowList href
        (fun re hre => h re (List.mem_append_right _ hre))
      unfold isAllowedUrlStep
      split
      · simp only [hd]
      · simp only [hd, ha]
  · decide
  · decide
  · decide

theorem isAllowedUrl_gate_witness :
    (∀ re ∈ gateExampleConfig.denyList ++ gateExampleConfig.allowList,
        re.sticky = false ∧ (re.global = true → re.lastIndex = 0))
    ∧ gateExampleConfig.denyList.any (fun re => re.matches "https://www.marxists.org/foo") = true
    ∧ isAllowedUrl gateExampleConfig "https://www.marxists.org/foo" = false
    ∧ gateExampleConfig.denyList.any (fun re => re.matches "https://www.marxists.org/bar") = false
    ∧ (isAllowedUrl gateExampleConfig "https://www.marxists.org/bar" = true
        ↔ gateExampleConfig.allowList.any
            (fun re => re.matches "https://www.marxists.org/bar") = true) :=
  ⟨by decide, by decide,
    ((isAllowedUrl_gate gateExampleConfig "https://www.marxists.org/foo").1 (by decide)).1
      (by decide),
    by decide,
    ((isAllowedUrl_gate gateExampleConfig "https://www.marxists.org/bar").1 (by decide)).2
      (by decide)⟩

/-- C1, the claim as stated fails: with `denyList = [/archive/g]` a first call rejects an
address under `/archive/` and leaves the pattern's `lastIndex` at 32; on the configuration as
that call left it the deny pattern still matches the address, yet the next call returns true
(its search starts at 32 and finds nothing), and the call after that rejects again. -/
theorem gate_alternates_on_global_pattern :
    isAllowedUrl archiveDenyConfig archiveUrl = false
    ∧ (isAllowedUrlStep archiveDenyConfig archiveUrl).2
        = { archiveDenyConfig with denyList := [{ archivePattern with lastIndex := 32 }] }
    ∧ ({ archiveDenyConfig with denyList := [{ archivePattern with lastIndex := 32 }] } :
          Config).denyList.any (fun re => re.matches archiveUrl) = true
    ∧ isAllowedUrl { archiveDenyConfig with denyList := [{ archivePattern with lastIndex := 32 }] }
        archiveUrl = true
    ∧ (isAllowedUrlStep
          { archiveDenyConfig with denyList := [{ archivePattern with lastIndex := 32 }] }
          archiveUrl).2 = archiveDenyConfig := by
  refine ⟨by decide, by decide, by decide, by decide, by decide⟩

/-! ## The style assembler -/

theorem data_ne_nil_of_truthy_lit (a b : String) (h : truthy a = true) : truthy (a ++ b) = true := by
  unfold truthy at *
  rw [String.data_append]
  cases hd : a.data with
  | nil => simp [hd] at h
  | cons c cs => simp

theorem truthy_rootRule (f : String) : truthy (rootRule f) = true := by
  unfold rootRule
  rw [String.append_assoc]
  exact data_ne_nil_of_truthy_lit _ _ (by decide)

theorem truthy_bodyRule (w p : String) : truthy (bodyRule w p) = true := by
  unfold bodyRule
  simp only [String.append_assoc]
  exact data_ne_nil_of_truthy_lit _ _ (by decide)

/-- The rule groups of a configuration, each present exactly when its guard holds. -/
theorem cssBase_eq_groups (config : Config) :
    cssBase config = join "\n" (ruleGroups config) := by
  have t1 : truthy "html \x7b box-sizing: border-box; -webkit-text-size-adjust: 100%; \x7d" = true := by decide
  have t2 : truthy "*, *::before, *::after \x7b box-sizing: inherit; \x7d" = true := by decide
  have t5 : truthy "#content, #main, #BodyContent, article \x7b max-width: 100%; \x7d" = true := by decide
  have t6 : truthy "img, svg, video, canvas, iframe \x7b max-width: 100% !important; height: auto !important; \x7d" = true := by decide
  have t7 : truthy tableRule = true := by decide
  have t8 : truthy tableSectionRule = true := by decide
  have t9 : truthy "pre \x7b white-space: pre-wrap; word-break: break-word; overflow: auto; -webkit-overflow-scrolling: touch; \x7d" = true := by decide
  have t10 : truthy "code, kbd, samp \x7b white-space: pre-wrap; word-break: break-word; \x7d" = true := by decide
  have t11 : truthy "a \x7b overflow-wrap: anywhere; \x7d" = true := by decide
  have t12 : truthy "body, #content, #main, #BodyContent, .content, .main \x7b width: auto !important; \x7d" = true := by decide
  have t13 : truthy darkRule = true := by decide
  have t0 : truthy "" = false := by decide
  unfold cssBase ruleGroups
  cases config.wrapTables <;> cases config.darkMode <;>
    simp [List.filter, t0, t1, t2, t5, t6, t7, t8, t9, t10, t11, t12, t13, truthy_rootRule,
      truthy_bodyRule]

theorem cssBase_eq_head_tail (config : Config) :
    cssBase config = cssHead
      ++ Nat.repr (if config.fontSizePx = 0 then 16 else config.fontSizePx) ++ "px"
      ++ cssTail config.compactMargins config.wrapTables config.darkMode := by
  rw [cssBase_eq_groups]
  unfold cssHead cssTail ruleGroups
  cases config.wrapTables <;> cases config.darkMode <;>
    (apply String.ext
     simp only [join, rootRule, String.data_append, List.append_assoc, List.cons_append,
       List.nil_append, Bool.false_eq_true, if_false, if_true])

theorem cssBase_data (config : Config) :
    (cssBase config).data = cssHead.data
      ++ (Nat.toDigits 10 (if config.fontSizePx = 0 then 16 else config.fontSizePx)
      ++ 'p' :: 'x' :: (cssTail config.compactMargins config.wrapTables config.darkMode).data) := by
  rw [cssBase_eq_head_tail]
  simp only [String.data_append, Nat.repr, List.asString, List.append_assoc]
  rfl

set_option maxRecDepth 100000 in
theorem cssTail_injective : ∀ a b c a' b' c' : Bool,
    (cssTail a b c).data = (cssTail a' b' c').data → a = a' ∧ b = b' ∧ c = c' := by
  decide

/-- C4: for configurations with a positive font size, `cssBase` gives the same text exactly when
the configurations agree on `compactMargins`, `wrapTables`, `fontSizePx` and `darkMode`; so the
text depends on nothing else (not on `enabled`, `allowList` or `denyList`). -/
theorem cssBase_eq_iff (C C' : Config) (h : 0 < C.fontSizePx) (h' : 0 < C'.fontSizePx) :
    cssBase C = cssBase C' ↔
      (C.compactMargins = C'.compactMargins ∧ C.wrapTables = C'.wrapTables
        ∧ C.fontSizePx = C'.fontSizePx ∧ C.darkMode = C'.darkMode) := by
  have hn : (if C.fontSizePx = 0 then 16 else C.fontSizePx) = C.fontSizePx :=
    if_neg (Nat.pos_iff_ne_zero.mp h)
  have hn' : (if C'.fontSizePx = 0 then 16 else C'.fontSizePx) = C'.fontSizePx :=
    if_neg (Nat.pos_iff_ne_zero.mp h')
  constructor
  · intro heq
    have hd := congrArg String.data heq
    rw [cssBase_data, cssBase_data, hn, hn'] at hd
    have hd2 := List.append_cancel_left hd
    obtain ⟨hdig, hrest⟩ := digits_cancel 'p' (by decide) _ _ _ _
      (toDigits_isDigit _) (toDigits_isDigit _) hd2
    have htail := (List.cons.inj hrest).2
    obtain ⟨h1, h2, h3⟩ := cssTail_injective _ _ _ _ _ _ htail
    exact ⟨h1, h2, toDigits_injective _ _ hdig, h3⟩
  · rintro ⟨h1, h2, h3, h4⟩
    rw [cssBase_eq_head_tail, cssBase_eq_head_tail, h1, h2, h3, h4]

theorem cssBase_eq_iff_witness :
    0 < defaultConfig.fontSizePx
    ∧ 0 < ({ defaultConfig with enabled := false, allowList := [], denyList := [fooPattern] } :
        Config).fontSizePx
    ∧ (cssBase defaultConfig
          = cssBase { defaultConfig with enabled := false, allowList := [], denyList := [fooPattern] }
        ↔ (defaultConfig.compactMargins = true ∧ defaultConfig.wrapTables = true
            ∧ defaultConfig.fontSizePx = 16 ∧ defaultConfig.darkMode = false)) :=
  ⟨by decide, by decide,
    cssBase_eq_iff defaultConfig
      { defaultConfig with enabled := false, allowList := [], denyList := [fooPattern] }
      (by decide) (by decide)⟩

theorem join_data (sep : String) : ∀ rs : List String,
    (join sep rs).data = List.intercalate sep.data (rs.map String.data) := by
  intro rs
  induction rs with
  | nil => simp [join, List.intercalate]
  | cons a rest ih =>
    cases rest with
    | nil => simp [join, List.intercalate]
    | cons b rest =>
      simp only [join, String.data_append, ih, List.intercalate, List.map_cons,
        List.intersperse, List.flatten_cons, List.append_assoc]

theorem textLines_join (rs : List String) (hne : rs ≠ [])
    (h : ∀ r ∈ rs, '\n' ∉ r.data) : textLines (join "\n" rs) = rs := by
  unfold textLines
  rw [join_data]
  have hd : ("\n" : String).data = ['\n'] := rfl
  rw [hd, List.splitOn_intercalate]
  · rw [List.map_map]
    have : (String.mk ∘ String.data) = id := by
      funext s; rfl
    rw [this, List.map_id]
  · intro l hl
    obtain ⟨r, hr, rfl⟩ := List.mem_map.mp hl
    exact h r hr
  · simpa using hne

theorem rootRule_no_newline (n : Nat) : '\n' ∉ (rootRule (Nat.repr n ++ "px")).data := by
  unfold rootRule
  simp only [String.data_append, Nat.repr, List.asString, List.mem_append, not_or]
  refine ⟨⟨by decide, ⟨?_, by decide⟩⟩, by decide⟩
  intro hmem
  have := toDigits_isDigit n _ hmem
  revert this
  decide

theorem ruleGroups_no_newline (config : Config) : ∀ r ∈ ruleGroups config, '\n' ∉ r.data := by
  intro r hr
  unfold ruleGroups at hr
  simp only [List.mem_append, List.mem_cons, List.mem_singleton, List.not_mem_nil, or_false] at hr
  have hb : ∀ b : Bool, '\n' ∉ (bodyRule (if b then "52ch" else "64ch")
      (if b then "12px" else "16px")).data := by decide
  rcases hr with (((h | h | h | h | h | h) | h) | (h | h | h | h)) | h
  · subst h; decide
  · subst h; decide
  · subst h; exact rootRule_no_newline _
  · subst h; exact hb _
  · subst h; decide
  · subst h; decide
  · split at h
    · simp only [List.mem_cons, List.mem_singleton, List.not_mem_nil, or_false] at h
      rcases h with h | h <;> (subst h; decide)
    · simp at h
  · subst h; decide
  · subst h; decide
  · subst h; decide
  · subst h; decide
  · split at h
    · simp only [List.mem_singleton] at h
      subst h; decide
    · simp at h

theorem mem_ruleGroups_iff (config : Config) (r : String) :
    r ∈ ruleGroups config ↔
      (r = rootRule (Nat.repr (if config.fontSizePx = 0 then 16 else config.fontSizePx) ++ "px")
        ∨ r ∈ fixedRules config.compactMargins config.wrapTables config.darkMode) := by
  unfold ruleGroups fixedRules
  simp only [List.mem_append, List.mem_cons, List.mem_singleton, List.not_mem_nil, or_false]
  tauto

theorem rootRule_head (f : String) : (rootRule f).data.head? = some ':' := by
  unfold rootRule
  simp only [String.data_append, List.append_assoc]
  rfl

theorem mem_ruleGroups_of_head (config : Config) (r : String) (h : r.data.head? ≠ some ':') :
    r ∈ ruleGroups config ↔ r ∈ fixedRules config.compactMargins config.wrapTables config.darkMode := by
  rw [mem_ruleGroups_iff]
  constructor
  · rintro (h1 | h1)
    · exact absurd (h1 ▸ rootRule_head _) h
    · exact h1
  · exact Or.inr

set_option maxRecDepth 100000 in
theorem fixedRules_guards : ∀ cm wt dm : Bool,
    (tableRule ∈ fixedRules cm wt dm ↔ wt = true)
    ∧ (tableSectionRule ∈ fixedRules cm wt dm ↔ wt = true)
    ∧ (darkRule ∈ fixedRules cm wt dm ↔ dm = true)
    ∧ (∀ r ∈ fixedRules cm false false, r ∈ fixedRules cm wt dm)
    ∧ "" ∉ fixedRules cm wt dm := by
  decide

theorem ruleGroups_ne_nil (config : Config) : ruleGroups config ≠ [] := by
  unfold ruleGroups
  simp

/-- C5: the text `cssBase` returns is the newline-joined list of the rule groups whose guard
holds, and its lines are exactly those rules: the two table rules are lines of it exactly when
`wrapTables` holds, the dark palette exactly when `darkMode` holds, every unguarded rule always,
and no line is empty.  With the defaults (`wrapTables` on, `darkMode` off) the table rule is
there and the dark rule is not; turning `wrapTables` off removes both table rules. -/
theorem cssBase_rule_groups (config : Config) :
    cssBase config = join "\n" (ruleGroups config)
    ∧ textLines (cssBase config) = ruleGroups config
    ∧ (tableRule ∈ textLines (cssBase config) ↔ config.wrapTables = true)
    ∧ (tableSectionRule ∈ textLines (cssBase config) ↔ config.wrapTables = true)
    ∧ (darkRule ∈ textLines (cssBase config) ↔ config.darkMode = true)
    ∧ (∀ r ∈ ruleGroups { config with wrapTables := false, darkMode := false },
        r ∈ textLines (cssBase config))
    ∧ "" ∉ textLines (cssBase config)
    ∧ tableRule ∈ textLines (cssBase defaultConfig)
    ∧ darkRule ∉ textLines (cssBase defaultConfig)
    ∧ tableRule ∉ textLines (cssBase { defaultConfig with wrapTables := false })
    ∧ tableSectionRule ∉ textLines (cssBase { defaultConfig with wrapTables := false }) := by
  have hl : ∀ c : Config, textLines (cssBase c) = ruleGroups c := fun c => by
    rw [cssBase_eq_groups]
    exact textLines_join _ (ruleGroups_ne_nil c) (ruleGroups_no_newline c)
  have ht : tableRule.data.head? ≠ some ':' := by decide
  have hs : tableSectionRule.data.head? ≠ some ':' := by decide
  have hk : darkRule.data.head? ≠ some ':' := by decide
  have he : ("" : String).data.head? ≠ some ':' := by decide
  have hg := fixedRules_guards
  refine ⟨cssBase_eq_groups config, hl config, ?_, ?_, ?_, ?_, ?_, ?_, ?_, ?_, ?_⟩
  · rw [hl, mem_ruleGroups_of_head _ _ ht]; exact (hg _ _ _).1
  · rw [hl, mem_ruleGroups_of_head _ _ hs]; exact (hg _ _ _).2.1
  · rw [hl, mem_ruleGroups_of_head _ _ hk]; exact (hg _ _ _).2.2.1
  · intro r hr
    rw [hl]
    rw [mem_ruleGroups_iff] at hr ⊢
    rcases hr with h | h
    · exact Or.inl h
    · exact Or.inr ((hg _ _ _).2.2.2.1 r h)
  · rw [hl, mem_ruleGroups_of_head _ _ he]; exact (hg _ _ _).2.2.2.2
  · rw [hl, mem_ruleGroups_of_head _ _ ht]; exact ((hg _ _ _).1).2 rfl
  · rw [hl, mem_ruleGroups_of_head _ _ hk]
    intro h
    exact absurd (((hg _ _ _).2.2.1).1 h) (by decide)
  · rw [hl, mem_ruleGroups_of_head _ _ ht]
    intro h
    exact absurd (((hg _ _ _).1).1 h) (by decide)
  · rw [hl, mem_ruleGroups_of_head _ _ hs]
    intro h
    exact absurd (((hg _ _ _).2.1).1 h) (by decide)

/-! ## The config store -/

theorem getField_setField (o : JSObject) (k k' : String) (v : JSVal) :
    getField (setField o k v) k' = if k = k' then some v else getField o k' := by
  induction o with
  | nil =>
    simp only [setField, getField]
  | cons p rest ih =>
    obtain ⟨a, w⟩ := p
    simp only [setField]
    by_cases hak : a = k
    · subst hak
      simp only [if_true, getField]
      by_cases h : a = k' <;> simp [h]
    · simp only [hak, if_false, getField, ih]
      by_cases hak' : a = k'
      · subst hak'
        have : ¬ k = a := fun h => hak h.symm
        simp only [if_true, this, if_false]
      · simp only [hak', if_false]

theorem getField_append (a b : JSObject) (k : String) :
    getField (a ++ b) k = match getField a k with
      | some v => some v
      | none => getField b k := by
  induction a with
  | nil => simp [getField]
  | cons p rest ih =>
    obtain ⟨a, w⟩ := p
    simp only [List.cons_append, getField]
    by_cases h : a = k
    · simp [h]
    · simp [h, ih]

theorem getField_spread (props : JSObject) : ∀ (base : JSObject) (k : String),
    getField (spread base props) k = match lookupLast props k with
      | some v => some v
      | none => getField base k := by
  induction props with
  | nil => intro base k; simp [spread, lookupLast, getField]
  | cons p ps ih =>
    intro base k
    obtain ⟨a, w⟩ := p
    have hs : spread base ((a, w) :: ps) = spread (setField base a w) ps := by
      simp [spread]
    rw [hs, ih]
    unfold lookupLast
    rw [List.reverse_cons, getField_append]
    cases hps : getField ps.reverse k with
    | some v => simp
    | none =>
      simp only [getField_setField, getField]
      by_cases h : a = k <;> simp [h]

theorem defaults_populated : ∀ k ∈ configFields, (getField defaultConfig.toJS k).isSome = true := by
  decide

/-- C3 (as amended): `storage.load` is total (every throwing step ends in the `catch`); it gives
the default record when the read throws or the text is absent, empty or unparsable; otherwise
it gives, for every property name, the persisted value when the persisted data has that property
(recognized or not) and the default value else; so each of the seven configuration fields is
populated in every loaded configuration. -/
theorem load_merges_over_defaults (parse : String → Option JSVal) (gm : GM) :
    ((gm.getThrows = true ∨ gm.stored = none ∨ gm.stored = some ""
        ∨ (∃ t, gm.stored = some t ∧ parse t = none)) →
      storage.loadWith parse gm = defaultConfig.toJS)
    ∧ (∀ t parsed, gm.getThrows = false → gm.stored = some t → t ≠ "" → parse t = some parsed →
        ∀ k, getField (storage.loadWith parse gm) k =
          match lookupLast (ownProps parsed) k with
          | some v => some v
          | none => getField defaultConfig.toJS k)
    ∧ (∀ k ∈ configFields, (getField (storage.loadWith parse gm) k).isSome = true)
    ∧ storage.load gm = storage.loadWith JSON_parse gm := by
  have hmerge : ∀ t parsed, gm.getThrows = false → gm.stored = some t → t ≠ "" →
      parse t = some parsed →
      storage.loadWith parse gm = spread defaultConfig.toJS (ownProps parsed) := by
    intro t parsed h1 h2 h3 h4
    simp [storage.loadWith, h1, h2, h3, h4]
  refine ⟨?_, ?_, ?_, rfl⟩
  · rintro (h | h | h | ⟨t, h, hp⟩)
    · simp [storage.loadWith, h]
    · simp [storage.loadWith, h]
    · simp [storage.loadWith, h]
    · unfold storage.loadWith
      simp only [h, Option.getD_some, hp]
      split <;> simp
  · intro t parsed h1 h2 h3 h4 k
    rw [hmerge t parsed h1 h2 h3 h4, getField_spread]
  · intro k hk
    by_cases h1 : gm.getThrows = true
    · simp only [storage.loadWith, h1, if_true]
      exact defaults_populated k hk
    · cases h2 : gm.stored with
      | none =>
        simp only [storage.loadWith, h2, Option.getD_none, if_true]
        split <;> exact defaults_populated k hk
      | some t =>
        by_cases h3 : t = ""
        · simp only [storage.loadWith, h2, Option.getD_some, h3, if_true]
          split <;> exact defaults_populated k hk
        · cases h4 : parse t with
          | none =>
            simp only [storage.loadWith, h2, Option.getD_some, h3, if_false, h4]
            split <;> exact defaults_populated k hk
          | some parsed =>
            rw [hmerge t parsed (by simpa using h1) h2 h3 h4, getField_spread]
            cases lookupLast (ownProps parsed) k with
            | some v => rfl
            | none => exact defaults_populated k hk

set_option maxRecDepth 100000 in
/-- C3, the claim as stated fails: with the text `\x7b"foo":1\x7d` stored, `storage.load` returns a
record that has the property `foo`, which the reference definition that drops unknown fields
does not have. -/
theorem load_keeps_unknown_field :
    getField (storage.load fooStore) "foo" = some (JSVal.num 1)
    ∧ getField (loadDroppingUnknown JSON_parse fooStore) "foo" = none
    ∧ storage.load fooStore ≠ loadDroppingUnknown JSON_parse fooStore := by
  have h1 : getField (storage.load fooStore) "foo" = some (JSVal.num 1) := by rfl
  have h2 : getField (loadDroppingUnknown JSON_parse fooStore) "foo" = none := by rfl
  refine ⟨h1, h2, ?_⟩
  intro h
  rw [h, h2] at h1
  cases h1

set_option maxRecDepth 100000 in
/-- C2 at the shipped defaults: `save` writes the allow-list pattern as an empty JSON object, so
`load` right after `save` returns `allowList = [\x7b\x7d]`, not the pattern; the other six
fields come back as saved. -/
theorem save_load_default_config :
    (storage.save defaultConfig.toJS emptyStore).stored
      = some "\x7b\"enabled\":true,\"compactMargins\":true,\"wrapTables\":true,\"fontSizePx\":16,\"darkMode\":false,\"allowList\":[\x7b\x7d],\"denyList\":[]\x7d"
    ∧ getField (storage.load (storage.save defaultConfig.toJS emptyStore)) "allowList"
      = some (JSVal.arr [JSVal.obj []])
    ∧ getField defaultConfig.toJS "allowList" = some (JSVal.arr [JSVal.regexp marxistsPattern])
    ∧ getField (storage.load (storage.save defaultConfig.toJS emptyStore)) "allowList"
      ≠ getField defaultConfig.toJS "allowList"
    ∧ (∀ k ∈ ["enabled", "compactMargins", "wrapTables", "fontSizePx", "darkMode", "denyList"],
        getField (storage.load (storage.save defaultConfig.toJS emptyStore)) k
          = getField defaultConfig.toJS k) := by
  have h2 : getField (storage.load (storage.save defaultConfig.toJS emptyStore)) "allowList"
      = some (JSVal.arr [JSVal.obj []]) := by rfl
  have h3 : getField defaultConfig.toJS "allowList"
      = some (JSVal.arr [JSVal.regexp marxistsPattern]) := by rfl
  refine ⟨by decide, h2, h3, ?_, ?_⟩
  · rw [h2, h3]
    intro h
    injection h with h
    injection h with h
    injection h with h
    cases h
  · intro k hk
    simp only [List.mem_cons, List.mem_singleton, List.not_mem_nil, or_false] at hk
    rcases hk with h | h | h | h | h | h <;> (subst h; rfl)

/-! ## The DOM passes -/

theorem lookup_assign (l : List (String × String)) (n n' v : String) :
    lookup (assign l n v) n' = if n = n' then some v else lookup l n' := by
  induction l with
  | nil => simp only [assign, lookup]
  | cons p rest ih =>
    obtain ⟨a, w⟩ := p
    simp only [assign]
    by_cases han : a = n
    · subst han
      simp only [if_true, lookup]
      by_cases h : a = n' <;> simp [h]
    · simp only [han, if_false, lookup, ih]
      by_cases han' : a = n'
      · subst han'
        have : ¬ n = a := fun h => han h.symm
        simp only [if_true, this, if_false]
      · simp only [han', if_false]

theorem lookup_filter_self (l : List (String × String)) (n : String) :
    lookup (l.filter (fun a => a.1 ≠ n)) n = none := by
  induction l with
  | nil => simp [lookup]
  | cons p rest ih =>
    obtain ⟨a, w⟩ := p
    by_cases h : a = n <;> simp_all [List.filter, lookup]

theorem lookup_filter_other (l : List (String × String)) (n a : String) (h : a ≠ n) :
    lookup (l.filter (fun x => x.1 ≠ n)) a = lookup l a := by
  induction l with
  | nil => simp [lookup]
  | cons p rest ih =>
    obtain ⟨b, w⟩ := p
    by_cases hb : b = n
    · subst hb
      have : ¬ b = a := fun e => h e.symm
      simp_all [List.filter, lookup]
    · by_cases hba : b = a
      · subst hba
        simp_all [List.filter, lookup]
      · simp_all [List.filter, lookup]

theorem setStyle_tag (e : Element) (p v : String) : (e.setStyle p v).tag = e.tag := by
  unfold Element.setStyle; split <;> rfl

theorem setStyle_depth (e : Element) (p v : String) : (e.setStyle p v).depth = e.depth := by
  unfold Element.setStyle; split <;> rfl

theorem setStyle_attrs (e : Element) (p v : String) : (e.setStyle p v).attrs = e.attrs := by
  unfold Element.setStyle; split <;> rfl

theorem setStyle_text (e : Element) (p v : String) : (e.setStyle p v).text = e.text := by
  unfold Element.setStyle; split <;> rfl

theorem lookup_setStyle (e : Element) (p v p' : String) :
    lookup (e.setStyle p v).style p' = if p = p' then some v else lookup e.style p' := by
  unfold Element.setStyle
  split
  · rename_i h
    by_cases hp : p = p'
    · subst hp; simp [h]
    · simp [hp]
  · simp only [lookup_assign]

theorem setStyle_of_lookup (e : Element) (p v : String) (h : lookup e.style p = some v) :
    e.setStyle p v = e := by
  unfold Element.setStyle
  simp [h]

theorem neutralizeElement_tag (e : Element) : (neutralizeElement e).tag = e.tag := by
  simp only [neutralizeElement, setStyle_tag]

theorem neutralizeElement_depth (e : Element) : (neutralizeElement e).depth = e.depth := by
  simp only [neutralizeElement, setStyle_depth]

theorem neutralizeElement_idem (e : Element) :
    neutralizeElement (neutralizeElement e) = neutralizeElement e := by
  have n1 : ¬ ("overflow" : String) = "max-width" := by decide
  have n2 : ¬ ("width" : String) = "max-width" := by decide
  have n3 : ¬ ("overflow" : String) = "width" := by decide
  have hmax : lookup (neutralizeElement e).style "max-width" = some "100%" := by
    simp only [neutralizeElement, lookup_setStyle, n1, n2, if_false, if_true]
  have hwidth : lookup (neutralizeElement e).style "width" = some "auto" := by
    simp only [neutralizeElement, lookup_setStyle, n3, if_false, if_true]
  have hov : ∃ v, v ≠ "" ∧ lookup (neutralizeElement e).style "overflow" = some v := by
    simp only [neutralizeElement, lookup_setStyle, if_true]
    split
    · exact ⟨"hidden", by decide, rfl⟩
    · rename_i h
      exact ⟨_, h, rfl⟩
  obtain ⟨v, hv, hl⟩ := hov
  generalize neutralizeElement e = x at hmax hwidth hl
  have h1 : x.setStyle "max-width" "100%" = x := setStyle_of_lookup _ _ _ hmax
  have h2 : x.setStyle "width" "auto" = x := setStyle_of_lookup _ _ _ hwidth
  have hg : x.getStyle "overflow" = v := by
    simp [Element.getStyle, hl]
  unfold neutralizeElement
  simp only [h1, h2, hg, hv, if_false]
  exact setStyle_of_lookup _ _ _ hl

theorem find_parent_tag (d : Nat) : ∀ (before before' : List Element),
    List.Forall₂ (fun a b => a.tag = b.tag ∧ a.depth = b.depth) before before' →
    (before.find? (fun a => a.depth < d)).map (fun a => a.tag)
      = (before'.find? (fun a => a.depth < d)).map (fun a => a.tag) := by
  intro before before' h
  induction h with
  | nil => rfl
  | cons hab _ ih =>
    rename_i a b l l'
    simp only [List.find?_cons, hab.2]
    split
    · simp [hab.1]
    · exact ih

/-- A map that keeps tags and depths leaves every parent tag as it was. -/
theorem withParents_map (g : Option String → Element → Element)
    (hg : ∀ p e, (g p e).tag = e.tag ∧ (g p e).depth = e.depth) :
    ∀ (doc before before' : List Element),
    List.Forall₂ (fun a b => a.tag = b.tag ∧ a.depth = b.depth) before before' →
    withParents before' ((withParents before doc).map (fun pe => g pe.1 pe.2))
      = (withParents before doc).map (fun pe => (pe.1, g pe.1 pe.2)) := by
  intro doc
  induction doc with
  | nil => intro _ _ _; rfl
  | cons e rest ih =>
    intro before before' h
    simp only [withParents, List.map_cons, List.cons.injEq, Prod.mk.injEq, and_true]
    refine ⟨?_, ?_⟩
    · rw [(hg _ e).2]
      exact (find_parent_tag _ _ _ h).symm
    · apply ih
      exact List.Forall₂.cons ⟨(hg _ e).1.symm, (hg _ e).2.symm⟩ h

theorem withParents_snd : ∀ (doc before : List Element),
    (withParents before doc).map (fun pe => pe.2) = doc := by
  intro doc
  induction doc with
  | nil => intro _; rfl
  | cons e rest ih => intro before; simp [withParents, ih]

theorem neutralize_idem (doc : Document) :
    neutralizeFixedWidthContainers (neutralizeFixedWidthContainers doc)
      = neutralizeFixedWidthContainers doc := by
  unfold neutralizeFixedWidthContainers
  rw [withParents_map (fun p e => if neutralizeSelector p e then neutralizeElement e else e)
    (by intro p e
        by_cases hs : neutralizeSelector p e = true
        · simp only [hs, if_true]
          exact ⟨neutralizeElement_tag e, neutralizeElement_depth e⟩
        · simp only [hs, if_false]
          exact ⟨rfl, rfl⟩) doc [] [] List.Forall₂.nil]
  rw [List.map_map]
  apply List.map_congr_left
  intro pe _
  simp only [Function.comp]
  by_cases h : neutralizeSelector pe.1 pe.2 = true
  · simp only [h, if_true, neutralizeElement_idem]
    split <;> rfl
  · have hf : neutralizeSelector pe.1 pe.2 = false := by simpa using h
    simp [hf]

theorem neutralize_noop (doc : Document)
    (h : ∀ pe ∈ withParents [] doc, neutralizeSelector pe.1 pe.2 = false) :
    neutralizeFixedWidthContainers doc = doc := by
  unfold neutralizeFixedWidthContainers
  conv_rhs => rw [← withParents_snd doc []]
  apply List.map_congr_left
  intro pe hpe
  simp [h pe hpe]

/-- What the two loops of `markFramesAndColumns` do to one element. -/
theorem markFramesAndColumns_eq_map (doc : Document) :
    markFramesAndColumns doc = doc.map (fun e =>
      if e.tag = "table" then e.setStyle "max-width" "100%"
      else if e.tag = "td" ∨ e.tag = "th" then
        (if e.hasAttribute "width" then e.removeAttribute "width" else e)
      else e) := by
  unfold markFramesAndColumns
  rw [List.map_map]
  apply List.map_congr_left
  intro e _
  simp only [Function.comp]
  by_cases ht : e.tag = "table"
  · have h1 : ¬ ("table" : String) = "td" := by decide
    have h2 : ¬ ("table" : String) = "th" := by decide
    simp only [ht, if_true, setStyle_tag, h1, h2, or_self, if_false]
  · simp only [ht, if_false]

theorem removeAttribute_hasAttribute (e : Element) (n : String) :
    (e.removeAttribute n).hasAttribute n = false := by
  show (lookup (e.attrs.filter (fun a => a.1 ≠ n)) n).isSome = false
  rw [lookup_filter_self]
  rfl

theorem setStyle_idem (e : Element) (p v : String) :
    (e.setStyle p v).setStyle p v = e.setStyle p v :=
  setStyle_of_lookup _ _ _ (by rw [lookup_setStyle]; simp)

theorem mark_idem (doc : Document) :
    markFramesAndColumns (markFramesAndColumns doc) = markFramesAndColumns doc := by
  rw [markFramesAndColumns_eq_map, markFramesAndColumns_eq_map, List.map_map]
  apply List.map_congr_left
  intro e _
  simp only [Function.comp]
  by_cases ht : e.tag = "table"
  · simp only [ht, if_true, setStyle_tag, setStyle_idem]
  · rw [if_neg ht]
    by_cases hc : e.tag = "td" ∨ e.tag = "th"
    · rw [if_pos hc]
      by_cases hw : e.hasAttribute "width" = true
      · rw [if_pos hw]
        have htag : (e.removeAttribute "width").tag = e.tag := rfl
        rw [htag, if_neg ht, if_pos hc, removeAttribute_hasAttribute]
        simp
      · rw [if_neg hw, if_neg ht, if_pos hc, if_neg hw]
    · rw [if_neg hc, if_neg ht, if_neg hc]

theorem mark_noop (doc : Document)
    (h : ∀ e ∈ doc, e.tag ≠ "table" ∧ e.tag ≠ "td" ∧ e.tag ≠ "th") :
    markFramesAndColumns doc = doc := by
  rw [markFramesAndColumns_eq_map]
  conv_rhs => rw [← List.map_id doc]
  apply List.map_congr_left
  intro e he
  obtain ⟨h1, h2, h3⟩ := h e he
  simp [h1, h2, h3]

/-- C6: each DOM pass is idempotent on its own (a second run of the same pass leaves every
element, with its attributes and inline style, as the first run left it), and a pass does
nothing on a document in which no element matches its selectors. -/
theorem passes_idempotent (doc : Document) :
    neutralizeFixedWidthContainers (neutralizeFixedWidthContainers doc)
        = neutralizeFixedWidthContainers doc
    ∧ markFramesAndColumns (markFramesAndColumns doc) = markFramesAndColumns doc
    ∧ ((∀ pe ∈ withParents [] doc, neutralizeSelector pe.1 pe.2 = false) →
        neutralizeFixedWidthContainers doc = doc)
    ∧ ((∀ e ∈ doc, e.tag ≠ "table" ∧ e.tag ≠ "td" ∧ e.tag ≠ "th") →
        markFramesAndColumns doc = doc) :=
  ⟨neutralize_idem doc, mark_idem doc, neutralize_noop doc, mark_noop doc⟩

theorem mark_pointwise (e : Element) :
    (fun e e' : Element =>
        e'.tag = e.tag ∧ e'.depth = e.depth ∧ e'.text = e.text
        ∧ (e.tag = "table" → e'.getStyle "max-width" = "100%")
        ∧ (e.tag = "td" ∨ e.tag = "th" → e'.hasAttribute "width" = false)
        ∧ (∀ p, p ≠ "max-width" → lookup e'.style p = lookup e.style p)
        ∧ (e.tag ≠ "table" → e'.style = e.style ∧ e'.styleAttr = e.styleAttr)
        ∧ (∀ a, a ≠ "width" → e'.getAttribute a = e.getAttribute a)
        ∧ (¬ (e.tag = "td" ∨ e.tag = "th") → e'.attrs = e.attrs))
      e (if e.tag = "table" then e.setStyle "max-width" "100%"
        else if e.tag = "td" ∨ e.tag = "th" then
          (if e.hasAttribute "width" then e.removeAttribute "width" else e)
        else e) := by
  by_cases ht : e.tag = "table"
  · rw [if_pos ht]
    have h1 : ¬ ("table" : String) = "td" := by decide
    have h2 : ¬ ("table" : String) = "th" := by decide
    refine ⟨setStyle_tag _ _ _, setStyle_depth _ _ _, setStyle_text _ _ _, ?_, ?_, ?_, ?_, ?_, ?_⟩
    · intro _
      simp [Element.getStyle, lookup_setStyle]
    · rintro (h | h)
      · exact absurd (ht.symm.trans h) h1
      · exact absurd (ht.symm.trans h) h2
    · intro p hp
      have : ¬ ("max-width" : String) = p := fun h => hp h.symm
      rw [lookup_setStyle, if_neg this]
    · intro h; exact absurd ht h
    · intro a _
      simp only [Element.getAttribute, setStyle_attrs]
    · intro _
      exact setStyle_attrs _ _ _
  · rw [if_neg ht]
    by_cases hc : e.tag = "td" ∨ e.tag = "th"
    · rw [if_pos hc]
      by_cases hw : e.hasAttribute "width" = true
      · rw [if_pos hw]
        refine ⟨rfl, rfl, rfl, fun h => absurd h ht, fun _ => removeAttribute_hasAttribute e _,
          fun _ _ => rfl, fun _ => ⟨rfl, rfl⟩, ?_, fun h => absurd hc h⟩
        intro a ha
        simp only [Element.getAttribute, Element.removeAttribute]
        exact lookup_filter_other _ _ _ ha
      · rw [if_neg hw]
        refine ⟨rfl, rfl, rfl, fun h => absurd h ht, fun _ => by simpa using hw,
          fun _ _ => rfl, fun _ => ⟨rfl, rfl⟩, fun _ _ => rfl, fun _ => rfl⟩
    · rw [if_neg hc]
      exact ⟨rfl, rfl, rfl, fun h => absurd h ht, fun h => absurd h hc,
        fun _ _ => rfl, fun _ => ⟨rfl, rfl⟩, fun _ _ => rfl, fun _ => rfl⟩

/-- C9: after `markFramesAndColumns` the document has the same elements in the same places;
every `table` has inline `max-width` `100%`; no `td` or `th` has a `width` attribute; every
other inline style property and every other attribute of every element is as before (only a
table's `style` attribute is rewritten, only a cell's attribute list shrinks).  In the page
with a cell carrying `width="800"` that cell ends without a `width` attribute. -/
theorem markFramesAndColumns_post (doc : Document) :
    List.Forall₂ (fun e e' =>
        e'.tag = e.tag ∧ e'.depth = e.depth ∧ e'.text = e.text
        ∧ (e.tag = "table" → e'.getStyle "max-width" = "100%")
        ∧ (e.tag = "td" ∨ e.tag = "th" → e'.hasAttribute "width" = false)
        ∧ (∀ p, p ≠ "max-width" → lookup e'.style p = lookup e.style p)
        ∧ (e.tag ≠ "table" → e'.style = e.style ∧ e'.styleAttr = e.styleAttr)
        ∧ (∀ a, a ≠ "width" → e'.getAttribute a = e.getAttribute a)
        ∧ (¬ (e.tag = "td" ∨ e.tag = "th") → e'.attrs = e.attrs))
      doc (markFramesAndColumns doc)
    ∧ (markFramesAndColumns cellDocument).map (fun e => (e.tag, e.hasAttribute "width"))
        = [("html", false), ("head", false), ("body", false), ("table", false), ("tr", false),
            ("td", false)]
    ∧ (cellDocument.map (fun e => (e.tag, e.getAttribute "width"))).getLast?
        = some ("td", some "800") := by
  refine ⟨?_, by decide, by decide⟩
  rw [markFramesAndColumns_eq_map]
  rw [List.forall₂_map_right_iff]
  apply List.forall₂_same.mpr
  intro e _
  exact mark_pointwise e

/-- C10 at a page whose table has `id="content"` and no inline style: the first run of the
cleanups gives the table the style text `max-width: 100%;`, which the selector
`#content[style*="width:"]` then matches, so a second run also sets `width` and `overflow`;
the two results differ. -/
theorem jsCleanups_twice_differs :
    (jsCleanups contentTableDocument).map (fun e => (e.tag, e.styleAttr))
      = [("html", none), ("head", none), ("body", none), ("table", some "max-width: 100%;")]
    ∧ (jsCleanups (jsCleanups contentTableDocument)).map (fun e => (e.tag, e.styleAttr))
      = [("html", none), ("head", none), ("body", none),
          ("table", some "max-width: 100%; width: auto; overflow: hidden;")]
    ∧ jsCleanups (jsCleanups contentTableDocument) ≠ jsCleanups contentTableDocument := by
  refine ⟨by decide, by decide, by decide⟩

/-! ## The managed style tag: lemmas -/

theorem countId_cons (e : Element) (l : List Element) (id : String) :
    countId (e :: l) id = (if e.hasId id then 1 else 0) + countId l id := by
  unfold countId
  by_cases h : e.hasId id = true
  · simp [List.filter, h]; omega
  · have hf : e.hasId id = false := by simpa using h
    simp [List.filter, hf]

theorem countId_insertAfterSubtree (d : Nat) (id : String) (el : Element) :
    ∀ l : List Element,
    countId (insertAfterSubtree d l el) id = countId l id + (if el.hasId id then 1 else 0) := by
  intro l
  induction l with
  | nil =>
    show countId [el] id = countId [] id + _
    rw [countId_cons]
    simp [countId]
  | cons e rest ih =>
    unfold insertAfterSubtree
    split
    · rw [countId_cons, ih, countId_cons]; omega
    · rw [countId_cons, countId_cons]; omega

theorem countId_appendChildAt (id : String) (el : Element) :
    ∀ (doc : Document) (i : Nat), i < doc.length →
    countId (appendChildAt i doc el) id = countId doc id + (if el.hasId id then 1 else 0) := by
  intro doc
  induction doc with
  | nil => intro i h; simp at h
  | cons p rest ih =>
    intro i h
    cases i with
    | zero =>
      simp only [appendChildAt]
      rw [countId_cons, countId_insertAfterSubtree, countId_cons]
      have : ({ el with depth := p.depth + 1 } : Element).hasId id = el.hasId id := rfl
      rw [this]; omega
    | succ j =>
      simp only [appendChildAt]
      rw [countId_cons, ih j (by simpa using h), countId_cons]; omega

theorem getElementById_eq_none_iff (doc : Document) (id : String) :
    getElementById doc id = none ↔ countId doc id = 0 := by
  unfold getElementById countId
  rw [List.find?_eq_none, List.length_eq_zero, List.filter_eq_nil_iff]

theorem find_insertAfterSubtree (d : Nat) (id : String) (el : Element) (hel : el.hasId id = true) :
    ∀ l : List Element, (∀ x ∈ l, x.hasId id = false) →
    (insertAfterSubtree d l el).find? (fun e => e.hasId id) = some el := by
  intro l
  induction l with
  | nil => intro _; simp [insertAfterSubtree, List.find?, hel]
  | cons e rest ih =>
    intro h
    unfold insertAfterSubtree
    split
    · rw [List.find?_cons, h e (List.mem_cons_self _ _)]
      exact ih (fun x hx => h x (List.mem_cons_of_mem _ hx))
    · rw [List.find?_cons, hel]

theorem find_appendChildAt (id : String) (el : Element) (hel : el.hasId id = true) :
    ∀ (doc : Document) (i : Nat), i < doc.length → (∀ x ∈ doc, x.hasId id = false) →
    ((appendChildAt i doc el).find? (fun e => e.hasId id)).map (fun e => e.text)
      = some el.text := by
  intro doc
  induction doc with
  | nil => intro i h; simp at h
  | cons p rest ih =>
    intro i h hno
    have hp : p.hasId id = false := hno p (List.mem_cons_self _ _)
    have hrest : ∀ x ∈ rest, x.hasId id = false := fun x hx => hno x (List.mem_cons_of_mem _ hx)
    cases i with
    | zero =>
      simp only [appendChildAt]
      rw [List.find?_cons, hp]
      simp only []
      rw [find_insertAfterSubtree p.depth id { el with depth := p.depth + 1 } hel rest hrest]
      rfl
    | succ j =>
      simp only [appendChildAt]
      rw [List.find?_cons, hp]
      exact ih j (by simpa using h) hrest

theorem headIndex_lt (doc : Document) (h : Nat) (hh : headIndex doc = some h) :
    h < doc.length := by
  cases doc with
  | nil => simp [headIndex] at hh
  | cons root rest =>
    simp only [headIndex] at hh
    by_cases hr : root.tag = "html"
    · rw [if_pos hr] at hh
      cases hi : rest.findIdx? (fun e => decide (e.tag = "head" ∧ e.depth = root.depth + 1)) with
      | none => rw [hi] at hh; cases hh
      | some i =>
        rw [hi] at hh
        have hlt : i < rest.length := (List.findIdx?_eq_some_iff_findIdx_eq.mp hi).1
        simp only [Option.some.injEq] at hh
        simp only [List.length_cons]
        omega
    · rw [if_neg hr] at hh
      cases hh

theorem find_setTextContentAt (id : String) (t : String) :
    ∀ (doc : Document) (i : Nat), doc.findIdx? (fun e => e.hasId id) = some i →
    ((setTextContentAt i doc t).find? (fun e => e.hasId id)).map (fun e => e.text) = some t := by
  intro doc
  induction doc with
  | nil => intro i h; simp at h
  | cons a rest ih =>
    intro i h
    rw [List.findIdx?_cons] at h
    by_cases ha : a.hasId id = true
    · simp only [ha, if_true, Option.some.injEq] at h
      subst h
      simp only [setTextContentAt]
      have : ({ a with text := t } : Element).hasId id = true := ha
      rw [List.find?_cons, this]
      rfl
    · have haf : a.hasId id = false := by simpa using ha
      simp only [haf, Bool.false_eq_true, if_false] at h
      rw [List.findIdx?_succ] at h
      cases hj : rest.findIdx? (fun e => e.hasId id) with
      | none => rw [hj] at h; cases h
      | some j =>
        rw [hj] at h
        simp only [Option.map_some', Option.some.injEq] at h
        subst h
        simp only [setTextContentAt]
        rw [List.find?_cons, haf]
        exact ih j hj

theorem countId_dropWhile_le (q : Element → Bool) (id : String) (l : List Element) :
    countId (l.dropWhile q) id ≤ countId l id := by
  unfold countId
  exact ((List.dropWhile_sublist q).filter _).length_le

theorem countId_setTextContentAt_le (id : String) (t : String) :
    ∀ (doc : Document) (i : Nat), countId (setTextContentAt i doc t) id ≤ countId doc id := by
  intro doc
  induction doc with
  | nil => intro i; simp [setTextContentAt]
  | cons a rest ih =>
    intro i
    cases i with
    | zero =>
      simp only [setTextContentAt]
      rw [countId_cons, countId_cons]
      have h1 : ({ a with text := t } : Element).hasId id = a.hasId id := rfl
      have h2 := countId_dropWhile_le (fun x => decide (a.depth < x.depth)) id rest
      rw [h1]; omega
    | succ j =>
      simp only [setTextContentAt]
      rw [countId_cons, countId_cons]
      have := ih j
      omega

theorem countId_pos_of_find (doc : Document) (id : String) (t : String)
    (h : (doc.find? (fun e => e.hasId id)).map (fun e => e.text) = some t) :
    1 ≤ countId doc id := by
  by_contra hc
  have h0 : countId doc id = 0 := by omega
  have := (getElementById_eq_none_iff doc id).mpr h0
  unfold getElementById at this
  rw [this] at h
  cases h

/-- One `onChange` call on a document with exactly one managed element. -/
theorem reapplyStyle_step (cfg : Config) (doc : Document) (h1 : countId doc tagId = 1) :
    ∃ doc', reapplyStyle cfg doc = some doc' ∧ countId doc' tagId = 1
      ∧ (getElementById doc' tagId).map (fun e => e.text) = some (cssBase cfg) := by
  unfold reapplyStyle
  cases hi : doc.findIdx? (fun e => e.hasId tagId) with
  | none =>
    have hall := List.findIdx?_eq_none_iff.mp hi
    have : countId doc tagId = 0 := by
      rw [← getElementById_eq_none_iff]
      unfold getElementById
      rw [List.find?_eq_none]
      intro x hx
      simp [hall x hx]
    omega
  | some i =>
    refine ⟨_, rfl, ?_, ?_⟩
    · have hle := countId_setTextContentAt_le tagId (cssBase cfg) doc i
      have hft := find_setTextContentAt tagId (cssBase cfg) doc i hi
      have hpos := countId_pos_of_find _ _ _ hft
      omega
    · exact find_setTextContentAt tagId (cssBase cfg) doc i hi

theorem lastApplied_cons (cfg d : Config) (rest : List Config) :
    lastApplied cfg (d :: rest) = lastApplied d rest := by
  unfold lastApplied
  cases rest with
  | nil => rfl
  | cons x xs =>
    rw [List.getLast?_cons_cons]
    cases h : (x :: xs).getLast? with
    | none => simp at h
    | some y => rfl

theorem reapplyAll_inv : ∀ (ds : List Config) (cfg : Config) (doc : Document),
    countId doc tagId = 1 →
    (getElementById doc tagId).map (fun e => e.text) = some (cssBase cfg) →
    ∃ doc', reapplyAll ds doc = some doc' ∧ countId doc' tagId = 1
      ∧ (getElementById doc' tagId).map (fun e => e.text) = some (cssBase (lastApplied cfg ds)) := by
  intro ds
  induction ds with
  | nil =>
    intro cfg doc h1 h2
    exact ⟨doc, rfl, h1, h2⟩
  | cons d rest ih =>
    intro cfg doc h1 _
    obtain ⟨doc1, hr, hc, ht⟩ := reapplyStyle_step d doc h1
    obtain ⟨doc2, hr2, hc2, ht2⟩ := ih d doc1 hc ht
    refine ⟨doc2, ?_, hc2, ?_⟩
    · simp only [reapplyAll, hr, hr2]
    · rw [ht2, lastApplied_cons]

theorem ensureStyleTag_present (cfg : Config) (doc : Document)
    (h : getElementById doc tagId ≠ none) : ensureStyleTag cfg doc = some doc := by
  unfold ensureStyleTag
  cases hg : getElementById doc tagId with
  | none => exact absurd hg h
  | some e => rfl

theorem ensureAll_present : ∀ (cs : List Config) (doc : Document),
    getElementById doc tagId ≠ none → ensureAll cs doc = some doc := by
  intro cs
  induction cs with
  | nil => intro _ _; rfl
  | cons c rest ih =>
    intro doc h
    simp only [ensureAll, ensureStyleTag_present c doc h]
    exact ih doc h

/-- C7 (as amended): from a document that has a `head` and no element with id
`mreader-style-base`, running the ensure block for one or more configurations and then the
`onChange` callback for any number of configurations succeeds and leaves exactly one element
with that id, whose text is `cssBase` of the configuration written last (that of the last
`onChange` call, else that of the ensure call which created the element); an `onChange` call
on a document with one managed element leaves one; an ensure call on a document that already
has one changes nothing. -/
theorem managed_style_singular (doc : Document) (c : Config) (cs ds : List Config)
    (hnone : getElementById doc tagId = none) (hhead : headIndex doc ≠ none) :
    (∃ doc', ensureThenReapply c cs ds doc = some doc' ∧ countId doc' tagId = 1
        ∧ (getElementById doc' tagId).map (fun e => e.text) = some (cssBase (lastApplied c ds)))
    ∧ (∀ (cfg : Config) (d : Document), countId d tagId = 1 →
        ∃ d', reapplyStyle cfg d = some d' ∧ countId d' tagId = 1)
    ∧ (∀ (cfg : Config) (d : Document), getElementById d tagId ≠ none →
        ensureStyleTag cfg d = some d) := by
  refine ⟨?_, ?_, ensureStyleTag_present⟩
  · cases hh : headIndex doc with
    | none => exact absurd hh hhead
    | some h =>
      have hlt := headIndex_lt doc h hh
      have hel : (styleElement (cssBase c)).hasId tagId = true := by
        simp [styleElement, Element.hasId, Element.getAttribute, Element.setAttribute,
          createElement, assign, lookup]
      have hall : ∀ x ∈ doc, x.hasId tagId = false := by
        intro x hx
        have := List.find?_eq_none.mp hnone x hx
        simpa using this
      have h0 : countId doc tagId = 0 := (getElementById_eq_none_iff doc tagId).mp hnone
      have hstep : ensureStyleTag c doc = some (appendChildAt h doc (styleElement (cssBase c))) := by
        unfold ensureStyleTag
        rw [hnone, hh]
      have hcount : countId (appendChildAt h doc (styleElement (cssBase c))) tagId = 1 := by
        rw [countId_appendChildAt tagId _ doc h hlt, h0, hel]
        rfl
      have htext : (getElementById (appendChildAt h doc (styleElement (cssBase c))) tagId).map
          (fun e => e.text) = some (cssBase c) :=
        find_appendChildAt tagId _ hel doc h hlt hall
      have hsome : getElementById (appendChildAt h doc (styleElement (cssBase c))) tagId ≠ none := by
        intro hn
        rw [hn] at htext
        cases htext
      obtain ⟨doc', hr, hc, ht⟩ := reapplyAll_inv ds c _ hcount htext
      refine ⟨doc', ?_, hc, ht⟩
      simp only [ensureThenReapply, ensureAll, hstep, ensureAll_present cs _ hsome, hr]
  · intro cfg d hd
    obtain ⟨d', h1, h2, _⟩ := reapplyStyle_step cfg d hd
    exact ⟨d', h1, h2⟩

theorem managed_style_singular_witness :
    getElementById cellDocument tagId = none ∧ headIndex cellDocument ≠ none
    ∧ ∃ doc', ensureThenReapply defaultConfig [{ defaultConfig with darkMode := true }]
          [{ defaultConfig with wrapTables := false }] cellDocument = some doc'
        ∧ countId doc' tagId = 1
        ∧ (getElementById doc' tagId).map (fun e => e.text)
            = some (cssBase (lastApplied defaultConfig [{ defaultConfig with wrapTables := false }])) :=
  ⟨by decide, by decide,
    (managed_style_singular cellDocument defaultConfig [{ defaultConfig with darkMode := true }]
      [{ defaultConfig with wrapTables := false }] (by decide) (by decide)).1⟩

/-- C7, the claim as stated fails: a document with no `head` has no element with id
`mreader-style-base`, yet the ensure block raises there (`document.head` is `null`), so no run
of ensure and `onChange` calls ends with a managed element. -/
theorem managed_style_needs_head :
    getElementById headlessDocument tagId = none
    ∧ ensureStyleTag defaultConfig headlessDocument = none
    ∧ countId headlessDocument tagId = 0
    ∧ ¬ ∃ doc', ensureThenReapply defaultConfig [] [] headlessDocument = some doc'
        ∧ countId doc' tagId = 1 := by
  refine ⟨by decide, by decide, by decide, ?_⟩
  rintro ⟨doc', h, _⟩
  have : ensureThenReapply defaultConfig [] [] headlessDocument = none := by decide
  rw [this] at h
  cases h

/-! ## Activation gating -/

theorem countId_insertAfterSubtree_plain (d : Nat) (id : String) (el : Element)
    (hel : el.hasId id = false) (l : List Element) :
    countId (insertAfterSubtree d l el) id = countId l id := by
  rw [countId_insertAfterSubtree, hel]
  simp

theorem countId_appendChildAt_plain (id : String) (el : Element) (hel : el.hasId id = false) :
    ∀ (doc : Document) (i : Nat), countId (appendChildAt i doc el) id = countId doc id := by
  intro doc
  induction doc with
  | nil => intro i; cases i <;> rfl
  | cons p rest ih =>
    intro i
    cases i with
    | zero =>
      simp only [appendChildAt]
      rw [countId_cons, countId_cons,
        countId_insertAfterSubtree_plain p.depth id { el with depth := p.depth + 1 } hel]
    | succ j =>
      simp only [appendChildAt]
      rw [countId_cons, countId_cons, ih j]

theorem getElementById_appendChildAt_plain (id : String) (el : Element)
    (hel : el.hasId id = false) (doc : Document) (i : Nat)
    (h : getElementById doc id = none) : getElementById (appendChildAt i doc el) id = none := by
  rw [getElementById_eq_none_iff] at h ⊢
  rw [countId_appendChildAt_plain id el hel, h]

theorem removeUI_absent (doc : Document) (h : getElementById doc uiId = none) :
    removeUI doc = doc := by
  unfold removeUI
  have hall : ∀ x ∈ doc, x.hasId uiId = false := by
    intro x hx
    have := List.find?_eq_none.mp h x hx
    simpa using this
  rw [List.findIdx?_eq_none_iff.mpr hall]

theorem stayedOut_refl (w : World) (hs : getElementById w.doc tagId = none)
    (hu : getElementById w.doc uiId = none) : stayedOut w w :=
  ⟨rfl, hs, hu, rfl, Or.inl rfl⟩

theorem ensureViewportMeta_effect (w w1 : World) (h : ensureViewportMeta w = some w1) :
    w1.injected = w.injected ∧ w1.onDOMContentLoaded = w.onDOMContentLoaded
    ∧ (w1.doc = w.doc ∨ ∃ i, headIndex w.doc = some i ∧ w1.doc = appendChildAt i w.doc viewportMeta) := by
  unfold ensureViewportMeta at h
  by_cases hm : (w.doc.any (fun e => e.tag = "meta" && e.getAttribute "name" = some "viewport")) = true
  · rw [if_pos hm] at h
    cases h
    exact ⟨rfl, rfl, Or.inl rfl⟩
  · rw [if_neg hm] at h
    cases hh : headIndex w.doc with
    | some i =>
      rw [hh] at h
      cases h
      exact ⟨rfl, rfl, Or.inr ⟨i, rfl, rfl⟩⟩
    | none =>
      rw [hh] at h
      cases hd : w.doc with
      | nil => rw [hd] at h; cases h
      | cons a rest =>
        rw [hd] at h
        cases h
        exact ⟨rfl, rfl, Or.inl rfl⟩

theorem apply_disabled (config : Config) (w : World)
    (hs : getElementById w.doc tagId = none) (hu : getElementById w.doc uiId = none)
    (ha : isAllowedUrl config w.href = true) (he : config.enabled = false) :
    stayedOut w (apply config w).1 := by
  have hm1 : viewportMeta.hasId tagId = false := by decide
  have hm2 : viewportMeta.hasId uiId = false := by decide
  unfold apply
  simp only [ha, he, Bool.not_true, Bool.false_eq_true, if_false, Bool.not_false, if_true]
  cases hv : ensureViewportMeta w with
  | none => exact stayedOut_refl w hs hu
  | some w1 =>
    obtain ⟨hi, hq, hdoc⟩ := ensureViewportMeta_effect w w1 hv
    simp only []
    rcases hdoc with hd | ⟨i, hh, hd⟩
    · rw [hd, removeUI_absent w.doc hu]
      exact ⟨hi, hs, hu, hq, Or.inl rfl⟩
    · have hu' := getElementById_appendChildAt_plain uiId viewportMeta hm2 w.doc i hu
      have hs' := getElementById_appendChildAt_plain tagId viewportMeta hm1 w.doc i hs
      rw [hd, removeUI_absent _ hu']
      exact ⟨hi, hs', hu', hq, Or.inr ⟨i, hh, rfl⟩⟩

/-- C8: on a page without managed style tag and settings mount, `apply` returns the page
unchanged when the URL gate rejects; when the gate accepts and `enabled` is off it hands
nothing to `GM_addStyle`, creates no managed style tag and no settings mount, queues no
cleanup and leaves every element as it was (at most the viewport `meta` is added to the
`head`); so styles, the managed tag, the DOM passes and the settings UI can only appear when
the gate accepts and `enabled` is on. -/
theorem apply_gating (config : Config) (w : World)
    (hs : getElementById w.doc tagId = none) (hu : getElementById w.doc uiId = none) :
    (isAllowedUrl config w.href = false → apply config w = (w, false))
    ∧ (isAllowedUrl config w.href = true → config.enabled = false →
        stayedOut w (apply config w).1)
    ∧ (¬ stayedOut w (apply config w).1 →
        isAllowedUrl config w.href = true ∧ config.enabled = true) := by
  have h1 : isAllowedUrl config w.href = false → apply config w = (w, false) := by
    intro h
    unfold apply
    simp [h]
  refine ⟨h1, apply_disabled config w hs hu, ?_⟩
  intro hn
  cases ha : isAllowedUrl config w.href with
  | false =>
    rw [h1 ha] at hn
    exact absurd (stayedOut_refl w hs hu) hn
  | true =>
    cases he : config.enabled with
    | false => exact absurd (apply_disabled config w hs hu ha he) hn
    | true => exact ⟨rfl, rfl⟩

set_option maxRecDepth 100000 in
theorem apply_gating_witness :
    getElementById cellWorld.doc tagId = none ∧ getElementById cellWorld.doc uiId = none
    ∧ isAllowedUrl disabledConfig cellWorld.href = true ∧ disabledConfig.enabled = false
    ∧ stayedOut cellWorld (apply disabledConfig cellWorld).1 :=
  ⟨by decide, by decide, by decide, rfl,
    (apply_gating disabledConfig cellWorld (by decide) (by decide)).2.1 (by decide) rfl⟩

end MReader
